import Mathlib

set_option maxHeartbeats 1000000

namespace Luminal

/-! # Shape trackers

The MatMul compiler pass under verification lives in
`src/compilers/metal/fp16/matmul.rs`.  It manipulates `ShapeTracker` values and a
`Graph`, whose implementations are not part of the sources at hand; they are
modelled from the specification (§3, §4.A, §4.D, §4.G of `spec.md`), while the
pass itself, the kernel structs and their methods are translated from the source
file. -/

/-- Modelled from the spec: a dimension entry of a selector shape pattern
(§4.G): either a compile-time constant or a named symbol; symbols bind
consistently across all entries of one pattern (the idiom shapes of §4.I reuse
`N`, `M` across both inputs). -/
inductive DimPat where
  | const (n : Nat)
  | sym (c : Char)
deriving DecidableEq

/-- Modelled from the spec: the ShapeTracker view metadata of §3: physical
`dims`, a logical→physical permutation `indexes`, per-physical-axis broadcast
flags `fake`, optional slice `mask` and zero `padding` windows.  Symbolic
dimensions are taken at their resolved (concrete) values. -/
structure ShapeTracker where
  dims : List Nat
  indexes : List Nat
  fake : List Bool
  mask : List (Option (Nat × Nat))
  padding : List (Option (Nat × Nat))
deriving DecidableEq, Inhabited

/-- Modelled from the spec: `shape()` returns the logical (post-permute)
dimension sequence (§3). -/
def ShapeTracker.shape (st : ShapeTracker) : List Nat :=
  st.indexes.map (fun i => st.dims.getD i 0)

/-- The per-logical-axis broadcast flags (the `fake` entry of the physical axis
each logical axis points at). -/
def ShapeTracker.logicalFakes (st : ShapeTracker) : List Bool :=
  st.indexes.map (fun i => st.fake.getD i false)

/-- Modelled from the spec: `permute(axes)` reorders the view by composing the
given permutation into `indexes`; a permuted axis keeps its original
mask/padding, which live on the physical axis (§4.A). -/
def ShapeTracker.permute (st : ShapeTracker) (axes : List Nat) : ShapeTracker :=
  { st with indexes := axes.map (fun a => st.indexes.getD a 0) }

/-- Modelled from the spec: `remove_dim(i)` removes logical axis `i`, dropping
the physical axis it points at and renumbering the remaining physical indexes
(§4.A, used by the rewrite pass to undo a prior broadcast/expand). -/
def ShapeTracker.removeDim (st : ShapeTracker) (i : Nat) : ShapeTracker :=
  let idx := st.indexes.getD i 0
  { dims := st.dims.eraseIdx idx
    indexes := (st.indexes.eraseIdx i).map (fun j => if idx < j then j - 1 else j)
    fake := st.fake.eraseIdx idx
    mask := st.mask.eraseIdx idx
    padding := st.padding.eraseIdx idx }

/-- Modelled from the spec: `is_sliced()` — some axis carries a slice mask. -/
def ShapeTracker.isSliced (st : ShapeTracker) : Bool :=
  st.mask.any (fun m => m.isSome)

/-- Modelled from the spec: `is_padded()` — some axis carries padding. -/
def ShapeTracker.isPadded (st : ShapeTracker) : Bool :=
  st.padding.any (fun p => p.isSome)

/-- Modelled from the spec: contiguous iff `indexes` is the identity
permutation and no fake/mask/padding differ from default (§3). -/
def ShapeTracker.isContiguous (st : ShapeTracker) : Bool :=
  st.indexes == List.range st.dims.length &&
  st.fake.all (fun f => !f) &&
  st.mask.all (fun m => m.isNone) &&
  st.padding.all (fun p => p.isNone)

/-- A fresh tracker over the given dimensions: identity permutation, no fake
axes, no mask, no padding. -/
def ShapeTracker.fromDims (ds : List Nat) : ShapeTracker :=
  { dims := ds
    indexes := List.range ds.length
    fake := List.replicate ds.length false
    mask := List.replicate ds.length none
    padding := List.replicate ds.length none }

/-- Modelled from the spec: `contiguous()` returns a fresh tracker over the
logical shape, with identity permutation, no mask, no padding (§4.A). -/
def ShapeTracker.contiguous (st : ShapeTracker) : ShapeTracker :=
  ShapeTracker.fromDims st.shape

/-! # The graph -/

/-- The operator kinds the MatMul pass distinguishes: the `MetalMul` /
`MetalSumReduce(dim)` primitives it matches, the `MetalContiguous` copies and
the three kernel operators it emits (`MatVec` and `Matmul` carry the library
kernel name the pass selected), and an opaque remainder. -/
inductive LOp where
  | mulOp
  | sumReduce (dim : Nat)
  | contiguousOp
  | matVec (kernel : String)
  | matVec1Row
  | matmulKernel (kernel : String)
  | otherOp (tag : Nat)
deriving DecidableEq, Inhabited

/-- Modelled from the spec: a graph edge carries
`(output_index, input_index, ShapeTracker)` from producer `src` to consumer
`dst` (§3). -/
structure LEdge where
  src : Nat
  dst : Nat
  outputIndex : Nat
  inputIndex : Nat
  shape : ShapeTracker
deriving DecidableEq, Inhabited

/-- Modelled from the spec: the graph state the pass touches — operator nodes,
edges, the user-pinned `no_delete` set, the `to_retrieve` set, and the next
fresh node id (§3, §4.D). -/
structure LGraph where
  nodes : List (Nat × LOp)
  edges : List LEdge
  noDelete : List Nat
  toRetrieve : List Nat
  nextId : Nat
deriving DecidableEq, Inhabited

/-- The operator of a node id, if present. -/
def LGraph.opOf (g : LGraph) (n : Nat) : Option LOp :=
  (g.nodes.find? (fun pr => pr.1 == n)).map Prod.snd

/-- The ids of the nodes present in the graph. -/
def LGraph.nodeIds (g : LGraph) : List Nat :=
  g.nodes.map Prod.fst

/-- Modelled from the spec: `add_op` appends a fresh node and returns its id
(§4.D). -/
def LGraph.addNode (g : LGraph) (op : LOp) : LGraph × Nat :=
  ({ g with nodes := g.nodes ++ [(g.nextId, op)], nextId := g.nextId + 1 }, g.nextId)

/-- Adding one input edge of a node under construction (the builder's
`.input(src, output_slot, shape)` call, §4.D). -/
def LGraph.addEdge (g : LGraph) (e : LEdge) : LGraph :=
  { g with edges := g.edges ++ [e] }

/-- Modelled from the spec: `move_outgoing_edge(a, b)` redirects every edge
leaving `a` so it leaves `b` instead (§4.I step f). -/
def LGraph.moveOutgoingEdge (g : LGraph) (a b : Nat) : LGraph :=
  { g with edges := g.edges.map (fun e => if e.src == a then { e with src := b } else e) }

/-- Modelled from the spec: `move_references(...)` redirects user references
(`no_delete`, `to_retrieve`) from `a` to `b` (§4.I step f, §4.D invariant). -/
def LGraph.moveReferences (g : LGraph) (a b : Nat) : LGraph :=
  { g with
    noDelete := g.noDelete.map (fun x => if x == a then b else x)
    toRetrieve := g.toRetrieve.map (fun x => if x == a then b else x) }

/-- Modelled from the spec: `remove_node` deletes a node and prunes all its
incident edges (§4.D). -/
def LGraph.removeNode (g : LGraph) (n : Nat) : LGraph :=
  { g with
    nodes := g.nodes.filter (fun pr => pr.1 != n)
    edges := g.edges.filter (fun e => e.src != n && e.dst != n) }

/-- The edges feeding node `n` (the triples `get_sources` returns, §4.D). -/
def LGraph.sourcesOf (g : LGraph) (n : Nat) : List LEdge :=
  g.edges.filter (fun e => e.dst == n)

/-- The two source edges of a binary node, ordered by input slot — the
`srcs[0]`, `srcs[1]` the pass reads off `get_sources`. -/
def LGraph.sourcePair (g : LGraph) (n : Nat) : Option (LEdge × LEdge) :=
  match g.sourcesOf n with
  | [a, b] => some (if a.inputIndex ≤ b.inputIndex then (a, b) else (b, a))
  | _ => none

/-- Whether the graph has a direct dataflow edge from `a` to `b`. -/
def LGraph.hasEdge (g : LGraph) (a b : Nat) : Bool :=
  g.edges.any (fun e => e.src == a && e.dst == b)

/-- The number of `Mul` nodes in the graph (the rewrite loops' termination
measure: every rewrite deletes the matched `Mul`). -/
def LGraph.mulCount (g : LGraph) : Nat :=
  g.nodes.countP (fun pr => pr.2 == LOp.mulOp)

/-- Basic well-formedness: node ids and edge endpoints are below the fresh-id
counter, and no node has more than two inputs (every primitive the pass touches
has arity ≤ 2). -/
def LGraph.wf (g : LGraph) : Bool :=
  g.nodes.all (fun pr => pr.1 < g.nextId) &&
  g.edges.all (fun e => e.src < g.nextId && e.dst < g.nextId) &&
  g.nodes.all (fun pr => (g.edges.filter (fun e => e.dst == pr.1)).length ≤ 2)

/-! # The selector patterns

Modelled from the spec (§4.G): a `SelectOp` pattern constrains the operator
type, the input shapes (constants must coincide, symbols bind consistently),
the per-axis fake flags (`none` is a wildcard), and `.edge` chains a pattern to
a consumer.  The four concrete patterns below are translated from
`MetalMatMulCompiler::compile` (matmul.rs lines 405–448 and 543–589). -/

/-- One step of shape-pattern matching: match one `DimPat` against a concrete
dimension under a symbol environment. -/
def matchDim (env : List (Char × Nat)) : DimPat → Nat → Option (List (Char × Nat))
  | DimPat.const c, n => if c = n then some env else none
  | DimPat.sym ch, n =>
    match env.find? (fun pr => pr.1 == ch) with
    | some pr => if pr.2 = n then some env else none
    | none => some ((ch, n) :: env)

/-- Match a whole shape pattern against a logical shape, threading the symbol
environment. -/
def matchDims (env : List (Char × Nat)) : List DimPat → List Nat → Option (List (Char × Nat))
  | [], [] => some env
  | p :: ps, n :: ns =>
    match matchDim env p n with
    | some env1 => matchDims env1 ps ns
    | none => none
  | _, _ => none

/-- Match the two input-shape patterns of a binary selector positionally, with
one shared symbol environment. -/
def matchShapes2 (p1 p2 : List DimPat) (s1 s2 : List Nat) : Bool :=
  match matchDims [] p1 s1 with
  | some env => (matchDims env p2 s2).isSome
  | none => false

/-- Match a per-axis fake-flag pattern (`none` = wildcard) against the logical
fake flags of a tracker. -/
def matchFakePat : List (Option Bool) → List Bool → Bool
  | [], [] => true
  | none :: ps, _ :: fs => matchFakePat ps fs
  | some b :: ps, f :: fs => b == f && matchFakePat ps fs
  | _, _ => false

/-- One `Mul → SumReduce` idiom pattern: the two input shape patterns and fake
patterns on the `Mul`, and the required reduction dimension on the
`SumReduce`. -/
structure IdiomPattern where
  shapes1 : List DimPat
  shapes2 : List DimPat
  fakes1 : List (Option Bool)
  fakes2 : List (Option Bool)
  srDim : Nat
deriving DecidableEq

/-- Whether nodes `mul` and `sr` of the graph match the given idiom pattern:
`mul` is a `Mul` with exactly two source edges whose shapes and fake flags
match the pattern, and it feeds a `SumReduce` over the pattern's dimension. -/
def matchesPattern (g : LGraph) (p : IdiomPattern) (mul sr : Nat) : Bool :=
  (g.opOf mul == some LOp.mulOp) &&
  (match g.sourcePair mul with
   | some (e1, e2) =>
     matchShapes2 p.shapes1 p.shapes2 e1.shape.shape e2.shape.shape &&
     matchFakePat p.fakes1 e1.shape.logicalFakes &&
     matchFakePat p.fakes2 e2.shape.logicalFakes
   | none => false) &&
  g.hasEdge mul sr &&
  (g.opOf sr == some (LOp.sumReduce p.srDim))

/-- The GEMV pattern (`vecmat_pattern`, matmul.rs lines 405–426):
shapes `[1,N,M] | [1,N,M]`, fakes `[None, true, false] | [true, false, false]`,
reduce dim 2. -/
def vecmatPattern : IdiomPattern :=
  { shapes1 := [DimPat.const 1, DimPat.sym 'N', DimPat.sym 'M']
    shapes2 := [DimPat.const 1, DimPat.sym 'N', DimPat.sym 'M']
    fakes1 := [none, some true, some false]
    fakes2 := [some true, some false, some false]
    srDim := 2 }

/-- The batched GEMV pattern (`batch_vecmat_pattern`, matmul.rs lines 427–448):
shapes `[1,1,N,M] | [1,1,N,M]`, fakes `[None, None, true, false] |
[None, true, false, false]`, reduce dim 3. -/
def batchVecmatPattern : IdiomPattern :=
  { shapes1 := [DimPat.const 1, DimPat.const 1, DimPat.sym 'N', DimPat.sym 'M']
    shapes2 := [DimPat.const 1, DimPat.const 1, DimPat.sym 'N', DimPat.sym 'M']
    fakes1 := [none, none, some true, some false]
    fakes2 := [none, some true, some false, some false]
    srDim := 3 }

/-- The GEMM pattern (`single_searcher`, matmul.rs lines 543–565): shapes
`[M,N,K] | [M,N,K]`, fakes `[false, true, false] | [true, false, false]`,
reduce dim 2. -/
def singleMatmulPattern : IdiomPattern :=
  { shapes1 := [DimPat.sym 'M', DimPat.sym 'N', DimPat.sym 'K']
    shapes2 := [DimPat.sym 'M', DimPat.sym 'N', DimPat.sym 'K']
    fakes1 := [some false, some true, some false]
    fakes2 := [some true, some false, some false]
    srDim := 2 }

/-- The batched GEMM pattern (`batch_searcher`, matmul.rs lines 566–589):
shapes `[D,A,C,B] | [D,A,C,B]`, fakes `[false, false, true, false] |
[true, true, false, false]`, reduce dim 3. -/
def batchMatmulPattern : IdiomPattern :=
  { shapes1 := [DimPat.sym 'D', DimPat.sym 'A', DimPat.sym 'C', DimPat.sym 'B']
    shapes2 := [DimPat.sym 'D', DimPat.sym 'A', DimPat.sym 'C', DimPat.sym 'B']
    fakes1 := [some false, some false, some true, some false]
    fakes2 := [some true, some true, some false, some false]
    srDim := 3 }

/-- The two patterns of the first rewrite loop, in iterator order. -/
def vecmatPatterns : List IdiomPattern := [vecmatPattern, batchVecmatPattern]

/-- The two patterns of the second rewrite loop, in iterator order. -/
def matmulPatterns : List IdiomPattern := [singleMatmulPattern, batchMatmulPattern]

/-- All four recognised idiom patterns. -/
def allPatterns : List IdiomPattern := vecmatPatterns ++ matmulPatterns

/-! # The MatMul compiler pass (translated from `MetalMatMulCompiler::compile`) -/

/-- `BM` threadgroup constant of the GEMV kernels (matmul.rs line 172). -/
def BMconst : Nat := 8

/-- `BN` threadgroup constant of the GEMV kernels (matmul.rs line 173). -/
def BNconst : Nat := 32

/-- The GEMV library kernel name the pass requests:
`format!("gemv_{}float16_bm{BM}_bn{BN}_tm4_tn4", if contiguous { "t_" } else { "" })`
(matmul.rs lines 502–505). -/
def gemvKernelName (contig : Bool) : String :=
  "gemv_" ++ (if contig then "t_" else "") ++
    "float16_bm" ++ toString BMconst ++ "_bn" ++ toString BNconst ++ "_tm4_tn4"

/-- The GEMM library kernel name the pass requests:
`format!("gemm_{}{}_float16_float16_bm32_bn32_bk16_wm2_wn2_MN_naligned_K_taligned", ...)`
with `n`/`t` chosen by each operand's contiguity (matmul.rs line 640). -/
def gemmKernelName (c1 c2 : Bool) : String :=
  "gemm_" ++ (if c1 then "n" else "t") ++ (if c2 then "n" else "t") ++
    "_float16_float16_bm32_bn32_bk16_wm2_wn2_MN_naligned_K_taligned"

/-- The rewritten tracker of the first (vector) operand of a GEMV match: undo
the expansions (`remove_dim(2)` when rank 4, then `remove_dim(1)`,
`remove_dim(0)`) — matmul.rs lines 463–470. -/
def vecmatSrc1Shape (st : ShapeTracker) : ShapeTracker :=
  (((if st.dims.length == 4 then st.removeDim 2 else st).removeDim 1).removeDim 0)

/-- The rewritten tracker of the second (matrix) operand of a GEMV match: undo
the expansions (`remove_dim(1)` when rank 4, then `remove_dim(0)`) and restore
the orientation with `permute([1,0])` — matmul.rs lines 466–472. -/
def vecmatSrc2Shape (st : ShapeTracker) : ShapeTracker :=
  (((if st.dims.length == 4 then st.removeDim 1 else st).removeDim 0).permute [1, 0])

/-- A rewrite's outcome: the new graph and the id of the emitted kernel node. -/
structure RewriteResult where
  graph : LGraph
  kernelId : Nat
deriving DecidableEq

/-- The body of the first rewrite loop (matmul.rs lines 453–539): read the two
source edges of the matched `Mul`, undo the broadcast and permute, insert a
`Contiguous` op if the matrix operand is sliced or padded, emit `MatVec1Row`
for a non-contiguous matrix and the library `MatVec` kernel otherwise, redirect
the `SumReduce`'s consumers and references to the new node, and remove the
`Mul` and `SumReduce`.  Returns `none` when the `Mul` does not have exactly two
source edges (then the searcher could not have matched). -/
def vecmatRewriteBody (g : LGraph) (mul sr : Nat) (e1 e2 : LEdge) : RewriteResult :=
    let s1 := vecmatSrc1Shape e1.shape
    let s2 := vecmatSrc2Shape e2.shape
    let step1 : LGraph × Nat × ShapeTracker :=
      if s2.isSliced || s2.isPadded then
        let an := g.addNode LOp.contiguousOp
        (an.1.addEdge ⟨e2.src, an.2, 0, 0, s2⟩, an.2, s2.contiguous)
      else (g, e2.src, s2)
    let g1 := step1.1
    let src2 := step1.2.1
    let s2f := step1.2.2
    let step2 : LGraph × Nat :=
      if !s2f.isContiguous then
        let an := g1.addNode LOp.matVec1Row
        ((an.1.addEdge ⟨e1.src, an.2, 0, 0, s1⟩).addEdge ⟨src2, an.2, 0, 1, s2f⟩, an.2)
      else
        let an := g1.addNode (LOp.matVec (gemvKernelName s2f.isContiguous))
        ((an.1.addEdge ⟨e1.src, an.2, 0, 0, s1⟩).addEdge ⟨src2, an.2, 0, 1, s2f⟩, an.2)
    let g2 := step2.1
    let kid := step2.2
    let g3 := (g2.moveOutgoingEdge sr kid).moveReferences sr kid
    ⟨(g3.removeNode mul).removeNode sr, kid⟩

/-- The first loop's rewrite, guarded by `get_sources` returning exactly two
edges (which the searcher's match guarantees). -/
def vecmatRewriteCore (g : LGraph) (mul sr : Nat) : Option RewriteResult :=
  (g.sourcePair mul).map (fun pr => vecmatRewriteBody g mul sr pr.1 pr.2)

/-- The first loop's rewrite as a graph transformer. -/
def vecmatRewrite (g : LGraph) (mul sr : Nat) : LGraph :=
  match vecmatRewriteCore g mul sr with
  | some r => r.graph
  | none => g

/-- The rewritten tracker of the first operand of a GEMM match:
`remove_dim(if len == 4 { 2 } else { 1 })` — matmul.rs line 601. -/
def matmulSrc1Shape (st : ShapeTracker) : ShapeTracker :=
  st.removeDim (if st.dims.length == 4 then 2 else 1)

/-- The rewritten tracker of the second operand of a GEMM match:
`remove_dim(1)` when rank 4, then `remove_dim(0)` and `permute([1,0])` —
matmul.rs lines 602–606. -/
def matmulSrc2Shape (st : ShapeTracker) : ShapeTracker :=
  (((if st.dims.length == 4 then st.removeDim 1 else st).removeDim 0).permute [1, 0])

/-- The condition under which the GEMM rewrite makes its first operand
contiguous: rank 3 with a non-leading batch axis, or sliced, or padded
(matmul.rs lines 607–611). -/
def matmulNeedContig1 (st : ShapeTracker) : Bool :=
  (st.dims.length == 3 && st.indexes.getD 0 0 != 0) || st.isSliced || st.isPadded

/-- The body of the second rewrite loop (matmul.rs lines 591–673): undo the
broadcast and permute, make either operand contiguous when needed, emit the
GEMM library kernel whose `n`/`t` name variant is chosen by each operand's
contiguity, redirect consumers and references, and remove the matched nodes. -/
def matmulRewriteBody (g : LGraph) (mul sr : Nat) (e1 e2 : LEdge) : RewriteResult :=
    let s1 := matmulSrc1Shape e1.shape
    let s2 := matmulSrc2Shape e2.shape
    let step1 : LGraph × Nat × ShapeTracker :=
      if matmulNeedContig1 s1 then
        let an := g.addNode LOp.contiguousOp
        (an.1.addEdge ⟨e1.src, an.2, 0, 0, s1⟩, an.2, s1.contiguous)
      else (g, e1.src, s1)
    let g1 := step1.1
    let src1 := step1.2.1
    let s1f := step1.2.2
    let step2 : LGraph × Nat × ShapeTracker :=
      if s2.isSliced || s2.isPadded then
        let an := g1.addNode LOp.contiguousOp
        (an.1.addEdge ⟨e2.src, an.2, 0, 0, s2⟩, an.2, s2.contiguous)
      else (g1, e2.src, s2)
    let g2 := step2.1
    let src2 := step2.2.1
    let s2f := step2.2.2
    let an := g2.addNode (LOp.matmulKernel (gemmKernelName s1f.isContiguous s2f.isContiguous))
    let g3 := (an.1.addEdge ⟨src1, an.2, 0, 0, s1f⟩).addEdge ⟨src2, an.2, 0, 1, s2f⟩
    let kid := an.2
    let g4 := (g3.moveOutgoingEdge sr kid).moveReferences sr kid
    ⟨(g4.removeNode mul).removeNode sr, kid⟩

/-- The second loop's rewrite, guarded by `get_sources` returning exactly two
edges. -/
def matmulRewriteCore (g : LGraph) (mul sr : Nat) : Option RewriteResult :=
  (g.sourcePair mul).map (fun pr => matmulRewriteBody g mul sr pr.1 pr.2)

/-- The second loop's rewrite as a graph transformer. -/
def matmulRewrite (g : LGraph) (mul sr : Nat) : LGraph :=
  match matmulRewriteCore g mul sr with
  | some r => r.graph
  | none => g

/-- Find, in pattern-iterator order, the first idiom match whose `Mul` is not
pinned in `no_delete` (pinned matches are skipped by the `continue` at
matmul.rs lines 454–457 and 592–595 and never rewritten). -/
def findMatch (g : LGraph) (pats : List IdiomPattern) : Option (IdiomPattern × Nat × Nat) :=
  pats.findSome? (fun p =>
    (g.nodeIds.findSome? (fun m =>
      if g.noDelete.contains m then none
      else (g.nodeIds.find? (fun s => matchesPattern g p m s)).map (fun s => (m, s)))).map
      (fun ms => (p, ms.1, ms.2)))

/-- The first rewrite loop (`while s1.next_match() || s2.next_match()`,
matmul.rs line 453), fuelled by the number of `Mul` nodes: every iteration
either stops (no further unpinned match) or rewrites one match, deleting its
`Mul`. -/
def vecmatLoop : Nat → LGraph → LGraph
  | 0, g => g
  | fuel + 1, g =>
    match findMatch g vecmatPatterns with
    | none => g
    | some pms => vecmatLoop fuel (vecmatRewrite g pms.2.1 pms.2.2)

/-- The second rewrite loop (`while single_searcher.next_match() || ...`,
matmul.rs line 591). -/
def matmulLoop : Nat → LGraph → LGraph
  | 0, g => g
  | fuel + 1, g =>
    match findMatch g matmulPatterns with
    | none => g
    | some pms => matmulLoop fuel (matmulRewrite g pms.2.1 pms.2.2)

/-- `MetalMatMulCompiler::compile`: run the GEMV rewrite loop to exhaustion,
then the GEMM rewrite loop (matmul.rs lines 397–674). -/
def metalMatMulCompile (g : LGraph) : LGraph :=
  let g1 := vecmatLoop g.mulCount g
  matmulLoop g1.mulCount g1

/-! # The kernel operators (translated from the `MetalKernel` / `Operator`
impls of matmul.rs) -/

/-- Rust's `u64::div_ceil`: ceiling division. -/
def rustDivCeil (a b : Nat) : Nat := (a + b - 1) / b

/-- `MatVec::metal_forward` dispatch (matmul.rs lines 187–226): returns the
thread-group grid and the threadgroup dimensions.  `n` is the second dimension
of the second input's shape; the grid's x count is
`(n + b*4 - 1).div_ceil(b*4)` with `b = BN` for a contiguous matrix operand
and `b = BM` otherwise; the threadgroup is `BN × BM × 1`. -/
def matVecDispatch (inp0 inp1 : ShapeTracker) : (Nat × Nat × Nat) × (Nat × Nat × Nat) :=
  let n := inp1.shape.getD 1 0
  let b := if inp1.isContiguous then BNconst else BMconst
  ((rustDivCeil (n + b * 4 - 1) (b * 4), 1, 1), (BNconst, BMconst, 1))

/-- `Matmul::metal_forward` dispatch (matmul.rs lines 296–342): grid
`((n + 32 - 1).div_ceil(32), (m + 32 - 1).div_ceil(32), batch_size)` with
threadgroup `32 × 2 × 2`; `batch_size, m` come from a rank-3 first input's
leading dims (`1, shape[0]` when rank 2), `n` from the second input. -/
def matmulDispatch (inp0 inp1 : ShapeTracker) : (Nat × Nat × Nat) × (Nat × Nat × Nat) :=
  let n := inp1.shape.getD 1 0
  let bm := if inp0.shape.length == 3 then (inp0.shape.getD 0 0, inp0.shape.getD 1 0)
            else (1, inp0.shape.getD 0 0)
  ((rustDivCeil (n + 32 - 1) 32, rustDivCeil (bm.2 + 32 - 1) 32, bm.1), (32, 2, 2))

/-- `MatVec::output_buffer_sizes` (matmul.rs lines 183–185): a single symbolic
expression `input_shapes[1].shape()[1] * size_of::<f16>()`, here evaluated over
resolved dimensions. -/
def matVecOutputBufferSizes (shapes : List ShapeTracker) : List Nat :=
  [(shapes.getD 1 default).shape.getD 1 0 * 2]

/-- `MatVec1Row::output_buffer_sizes` (matmul.rs lines 93–95): identical to
`MatVec`'s. -/
def matVec1RowOutputBufferSizes (shapes : List ShapeTracker) : List Nat :=
  [(shapes.getD 1 default).shape.getD 1 0 * 2]

/-- `Matmul::output_buffer_sizes` (matmul.rs lines 284–295):
`m * n * batch_size * size_of::<f16>()` with `(batch_size, m)` the rank-3 first
input's leading dims, or `(1, shape[0])` when rank 2, and `n` the second
input's second dim. -/
def matmulOutputBufferSizes (shapes : List ShapeTracker) : List Nat :=
  let s0 := shapes.getD 0 default
  let s1 := shapes.getD 1 default
  let n := s1.shape.getD 1 0
  let bm := if s0.shape.length == 3 then (s0.shape.getD 0 0, s0.shape.getD 1 0)
            else (1, s0.shape.getD 0 0)
  [bm.2 * n * bm.1 * 2]

/-- The byte size of the output buffer `MatVec::process` allocates (matmul.rs
lines 230–240): `n * size_of::<f16>()`. -/
def matVecProcessAllocBytes (inp : List ShapeTracker) : Nat :=
  (inp.getD 1 default).shape.getD 1 0 * 2

/-- The byte size of the output buffer `MatVec1Row::process` allocates
(matmul.rs lines 126–137): `n * size_of::<f16>()` with `n` the second
dimension of the second input's shape. -/
def matVec1RowProcessAllocBytes (inp : List ShapeTracker) : Nat :=
  (inp.getD 1 default).shape.getD 1 0 * 2

/-- The byte size of the output buffer `Matmul::process` allocates (matmul.rs
lines 346–365): `batch_size * m * n * size_of::<f16>()` where
`(batch_size, m)` is `(a_shape[0], a_shape[1])` for a rank-3 first input and
`(0, a_shape[0])` — note the `0` — otherwise (line 359). -/
def matmulProcessAllocBytes (inp : List ShapeTracker) : Nat :=
  let a := (inp.getD 0 default).shape
  let b := (inp.getD 1 default).shape
  let n := b.getD 1 0
  let bm := if a.length == 3 then (a.getD 0 0, a.getD 1 0) else (0, a.getD 0 0)
  bm.1 * bm.2 * n * 2

/-! # A normal form for one rewrite step

Both rewrite bodies have the same net effect on the graph: append some fresh
nodes and edges, redirect the `SumReduce`'s outgoing edges to the new kernel
node, redirect references, and remove the `Mul` and the `SumReduce`.  The
lemmas about the pass are proved once against this normal form. -/

/-- The edge redirection `move_outgoing_edge` performs. -/
def redirTo (sr kid : Nat) (e : LEdge) : LEdge :=
  if e.src == sr then { e with src := kid } else e

/-- The net effect of one rewrite: nodes `A` and edges `E` appended, outgoing
edges of `sr` redirected to `kid`, references moved, `mul` and `sr` removed. -/
def stepOf (g : LGraph) (mul sr kid : Nat) (A : List (Nat × LOp)) (E : List LEdge) : LGraph :=
  { nodes := ((g.nodes ++ A).filter (fun pr => pr.1 != mul)).filter (fun pr => pr.1 != sr)
    edges := (((g.edges ++ E).map
        (fun e => if e.src == sr then { e with src := kid } else e)).filter
        (fun e => e.src != mul && e.dst != mul)).filter (fun e => e.src != sr && e.dst != sr)
    noDelete := g.noDelete.map (fun x => if x == sr then kid else x)
    toRetrieve := g.toRetrieve.map (fun x => if x == sr then kid else x)
    nextId := g.nextId + A.length }

/-- The operator kinds a rewrite may append: never a `Mul` or a `SumReduce`. -/
def addedOpOK : LOp → Prop
  | LOp.contiguousOp => True
  | LOp.matVec _ => True
  | LOp.matVec1Row => True
  | LOp.matmulKernel _ => True
  | _ => False

/-- Side conditions of a rewrite step: fresh ids for the appended nodes, all
appended edges target fresh nodes with in-bounds endpoints, and no fresh node
receives more than two inputs. -/
def StepOK (g : LGraph) (kid : Nat) (A : List (Nat × LOp)) (E : List LEdge) : Prop :=
  g.nextId ≤ kid ∧ kid < g.nextId + A.length ∧
  (∀ pr ∈ A, g.nextId ≤ pr.1 ∧ pr.1 < g.nextId + A.length ∧ addedOpOK pr.2) ∧
  (∀ e ∈ E, g.nextId ≤ e.dst ∧ e.dst < g.nextId + A.length ∧ e.src < g.nextId + A.length) ∧
  (∀ n, (E.filter (fun e => e.dst == n)).length ≤ 2)

/-! # Non-interference between matches

One rewrite can in principle touch another match's nodes: the removed `Mul`
could feed another match's `Mul`, or two matches could share nodes.  The
per-match guarantees (C1's removal clause, C2) hold for matches that do not
interfere in this way, which the following predicate captures for the match
`(m, s)`: every other rewritable match has no edge into `m`, a distinct
`SumReduce`, and any rewritable match sharing `m` also shares `s`. -/
def InterfOK (g : LGraph) (m s : Nat) : Prop :=
  ∀ p' ∈ allPatterns, ∀ m' s', matchesPattern g p' m' s' = true → m' ∉ g.noDelete →
    (m' = m → s' = s) ∧ (m' ≠ m → g.hasEdge m' m = false ∧ s' ≠ s)

/-- Decidable version of `InterfOK` over every match, used as a theorem
hypothesis dischargeable by `decide` on concrete graphs. -/
def noInterference (g : LGraph) : Bool :=
  allPatterns.all (fun p => g.nodeIds.all (fun m => g.nodeIds.all (fun s =>
    !(matchesPattern g p m s) ||
    allPatterns.all (fun p' => g.nodeIds.all (fun m' => g.nodeIds.all (fun s' =>
      !(matchesPattern g p' m' s' && !(g.noDelete.contains m')) ||
      (if m' == m then s' == s else !(g.hasEdge m' m) && s' != s)))))))

/-- The invariant carried through both loops for a pinned match (C2). -/
def PinnedInv (p : IdiomPattern) (m s : Nat) (g : LGraph) : Prop :=
  g.wf = true ∧ matchesPattern g p m s = true ∧ InterfOK g m s ∧ m ∈ g.noDelete

/-- The invariant carried through both loops for an unpinned, non-interfering
match (C1's removal clause): the match either still stands or both its nodes
are gone. -/
def UnpinnedInv (p : IdiomPattern) (m s : Nat) (g : LGraph) : Prop :=
  g.wf = true ∧ m < g.nextId ∧ s < g.nextId ∧
    ((matchesPattern g p m s = true ∧ m ∉ g.noDelete ∧ InterfOK g m s) ∨
     (m ∉ g.nodeIds ∧ s ∉ g.nodeIds))

/-! # Concrete graphs used to witness the theorems about the pass -/

/-- A first-operand tracker of logical shape `[1, 2, 3]` with fake flags
`(false, true, false)` — the shape the `matmul` builder gives the vector
operand of a GEMV. -/
def stVec1 : ShapeTracker :=
  ⟨[1, 2, 3], [0, 1, 2], [false, true, false], [none, none, none], [none, none, none]⟩

/-- A second-operand tracker of logical shape `[1, 2, 3]` with fake flags
`(true, false, false)`. -/
def stVec2 : ShapeTracker :=
  ⟨[1, 2, 3], [0, 1, 2], [true, false, false], [none, none, none], [none, none, none]⟩

/-- A four-node graph holding exactly one GEMV idiom:
`other(0), other(1) → Mul(2) → SumReduce(3)`. -/
def gVec : LGraph :=
  { nodes := [(0, LOp.otherOp 0), (1, LOp.otherOp 1), (2, LOp.mulOp), (3, LOp.sumReduce 2)]
    edges := [⟨0, 2, 0, 0, stVec1⟩, ⟨1, 2, 0, 1, stVec2⟩,
              ⟨2, 3, 0, 0, ShapeTracker.fromDims [1, 2]⟩]
    noDelete := []
    toRetrieve := [3]
    nextId := 4 }

/-- The same graph with the `Mul` pinned in `no_delete` (scenario S4). -/
def gVecPinned : LGraph :=
  { gVec with noDelete := [2] }

/-- The matrix-operand tracker the GEMV rewrite finally hands to the kernel:
the rewritten tracker, made contiguous when it was sliced or padded
(matmul.rs lines 474–485). -/
def vecmatSrc2Final (st : ShapeTracker) : ShapeTracker :=
  if (vecmatSrc2Shape st).isSliced || (vecmatSrc2Shape st).isPadded then
    (vecmatSrc2Shape st).contiguous
  else vecmatSrc2Shape st

/-- The first-operand tracker the GEMM rewrite finally hands to the kernel
(matmul.rs lines 607–622). -/
def matmulSrc1Final (st : ShapeTracker) : ShapeTracker :=
  if matmulNeedContig1 (matmulSrc1Shape st) then (matmulSrc1Shape st).contiguous
  else matmulSrc1Shape st

/-- The second-operand tracker the GEMM rewrite finally hands to the kernel
(matmul.rs lines 623–635). -/
def matmulSrc2Final (st : ShapeTracker) : ShapeTracker :=
  if (matmulSrc2Shape st).isSliced || (matmulSrc2Shape st).isPadded then
    (matmulSrc2Shape st).contiguous
  else matmulSrc2Shape st

/-- A sliced matrix-operand tracker: like `stVec2` but with a slice mask on
the second physical axis (scenario S5). -/
def stVec2Sliced : ShapeTracker :=
  ⟨[1, 2, 3], [0, 1, 2], [true, false, false], [none, some (0, 1), none], [none, none, none]⟩

/-- `gVec` with operand B sliced (scenario S5). -/
def gVecSliced : LGraph :=
  { gVec with
    edges := [⟨0, 2, 0, 0, stVec1⟩, ⟨1, 2, 0, 1, stVec2Sliced⟩,
              ⟨2, 3, 0, 0, ShapeTracker.fromDims [1, 2]⟩] }

/-- A matrix-operand tracker whose rewritten form is contiguous, driving the
GEMV rewrite into the library `MatVec` branch. -/
def stVec2Contig : ShapeTracker :=
  ⟨[1, 2, 3], [0, 2, 1], [true, false, false], [none, none, none], [none, none, none]⟩

/-- `gVec` with a matrix operand that is contiguous after the rewrite. -/
def gVecContig : LGraph :=
  { gVec with
    edges := [⟨0, 2, 0, 0, stVec1⟩, ⟨1, 2, 0, 1, stVec2Contig⟩,
              ⟨2, 3, 0, 0, ShapeTracker.fromDims [1, 2]⟩] }

/-- The rewrite outcome on `gVecContig`, evaluated. -/
def rVecContig : RewriteResult :=
  (vecmatRewriteCore gVecContig 2 3).getD ⟨default, 0⟩

/-- A graph whose single unpinned `Mul` (node 2) feeds two `SumReduce` nodes
(3 and 4), giving two overlapping GEMV matches. -/
def gTwoSR : LGraph :=
  { nodes := [(0, LOp.otherOp 0), (1, LOp.otherOp 1), (2, LOp.mulOp),
              (3, LOp.sumReduce 2), (4, LOp.sumReduce 2)]
    edges := [⟨0, 2, 0, 0, stVec1⟩, ⟨1, 2, 0, 1, stVec2⟩,
              ⟨2, 3, 0, 0, ShapeTracker.fromDims [1, 2]⟩,
              ⟨2, 4, 0, 0, ShapeTracker.fromDims [1, 2]⟩]
    noDelete := []
    toRetrieve := [3, 4]
    nextId := 5 }

/-- A graph holding an unpinned GEMV match (`Mul` 2 → `SumReduce` 3) whose
`Mul` also feeds the `Mul` (node 5) of a second, pinned GEMV match
(`Mul` 5 → `SumReduce` 6). -/
def gPinnedChain : LGraph :=
  { nodes := [(0, LOp.otherOp 0), (1, LOp.otherOp 1), (2, LOp.mulOp),
              (3, LOp.sumReduce 2), (4, LOp.otherOp 2), (5, LOp.mulOp),
              (6, LOp.sumReduce 2)]
    edges := [⟨0, 2, 0, 0, stVec1⟩, ⟨1, 2, 0, 1, stVec2⟩,
              ⟨2, 3, 0, 0, ShapeTracker.fromDims [1, 2]⟩,
              ⟨2, 5, 0, 0, stVec1⟩, ⟨4, 5, 0, 1, stVec2⟩,
              ⟨5, 6, 0, 0, ShapeTracker.fromDims [1, 2]⟩]
    noDelete := [5]
    toRetrieve := [3, 6]
    nextId := 7 }

/-- A first-operand (vector) tracker of the GEMV idiom carrying a slice mask
on its last axis, which survives the rewrite's `remove_dim(1)` and
`remove_dim(0)`. -/
def stVec1Sliced : ShapeTracker :=
  ⟨[1, 2, 3], [0, 1, 2], [false, true, false], [none, none, some (0, 2)],
   [none, none, none]⟩

/-- `gVec` with a sliced vector operand A. -/
def gVecSlicedVec : LGraph :=
  { gVec with
    edges := [⟨0, 2, 0, 0, stVec1Sliced⟩, ⟨1, 2, 0, 1, stVec2⟩,
              ⟨2, 3, 0, 0, ShapeTracker.fromDims [1, 2]⟩] }

/-- The rewrite outcome on `gVecSlicedVec`, evaluated. -/
def rVecSlicedVec : RewriteResult :=
  (vecmatRewriteCore gVecSlicedVec 2 3).getD ⟨default, 0⟩

/-- Decidable side condition: every idiom match in the graph has its `Mul`
pinned in `no_delete` (so neither loop finds anything to rewrite). -/
def allPinned (g : LGraph) : Bool :=
  g.nodeIds.all (fun m => allPatterns.all (fun p =>
    g.nodeIds.all (fun s => !matchesPattern g p m s || g.noDelete.contains m)))

/-! # C5: characterising the GEMV selector -/

/-- The GEMV selector condition as claim C5 words it: both inputs of shape
`[1, N, M]` (same `N`, `M`), FIRST input's fake flags `(fake, fake, not fake)`,
second input's `(fake, not fake, not fake)`, feeding a `SumReduce` with dim 2.
Stated from the claim's words, to be compared against the selector from the
source. -/
def gemvClaimC5 (g : LGraph) (mul sr : Nat) : Bool :=
  (g.opOf mul == some LOp.mulOp) &&
  (match g.sourcePair mul with
   | some (e1, e2) =>
     (e1.shape.shape.length == 3) && (e1.shape.shape.getD 0 0 == 1) &&
     (e2.shape.shape == e1.shape.shape) &&
     (e1.shape.logicalFakes == [true, true, false]) &&
     (e2.shape.logicalFakes == [true, false, false])
   | none => false) &&
  g.hasEdge mul sr &&
  (g.opOf sr == some (LOp.sumReduce 2))

/-- The amended GEMV selector condition: as C5, but the first input's axis-0
fake flag is unconstrained (the selector's fake pattern for it is `None`, a
wildcard). -/
def gemvClaimAmended (g : LGraph) (mul sr : Nat) : Bool :=
  (g.opOf mul == some LOp.mulOp) &&
  (match g.sourcePair mul with
   | some (e1, e2) =>
     (e1.shape.shape.length == 3) && (e1.shape.shape.getD 0 0 == 1) &&
     (e2.shape.shape == e1.shape.shape) &&
     (e1.shape.logicalFakes.getD 1 false == true) &&
     (e1.shape.logicalFakes.getD 2 true == false) &&
     (e2.shape.logicalFakes == [true, false, false])
   | none => false) &&
  g.hasEdge mul sr &&
  (g.opOf sr == some (LOp.sumReduce 2))

/-! # List helper lemmas -/

theorem find?_filter_of_imp {α : Type} (l : List α) (p q : α → Bool)
    (h : ∀ x, p x = true → q x = true) : (l.filter q).find? p = l.find? p := by
  induction l with
  | nil => rfl
  | cons a t ih =>
    by_cases hp : p a
    · have hq := h a hp
      simp [List.filter_cons, hq, List.find?_cons, hp]
    · by_cases hq : q a <;>
        simp [List.filter_cons, hq, List.find?_cons, hp, ih]

theorem filter_map_comm {α β : Type} (l : List α) (f : α → β) (p : β → Bool) :
    (l.map f).filter p = (l.filter fun a => p (f a)).map f := by
  induction l with
  | nil => rfl
  | cons a t ih => by_cases hp : p (f a) <;> simp [hp, ih]

theorem countP_lt_of_mem_anti {α : Type} (l : List α) (p r : α → Bool)
    (himp : ∀ a, r a = true → p a = true) (x : α) (hx : x ∈ l) (hpx : p x = true)
    (hrx : r x = false) : l.countP r < l.countP p := by
  induction l with
  | nil => cases hx
  | cons a t ih =>
    rcases List.mem_cons.mp hx with rfl | hxt
    · have h1 : t.countP r ≤ t.countP p := List.countP_mono_left (fun a _ ha => himp a ha)
      simp [List.countP_cons, hrx, hpx]
      omega
    · have h2 := ih hxt
      by_cases hra : r a
      · have := himp a hra
        simp [List.countP_cons, hra, this]
        omega
      · by_cases hpa : p a <;> simp [List.countP_cons, hra, hpa] <;> omega

theorem filter_eq_self_of_length {α : Type} (l : List α) (p : α → Bool)
    (h : (l.filter p).length = l.length) : l.filter p = l :=
  List.filter_eq_self.mpr (List.filter_length_eq_length.mp h)

/-! # Basic graph observation lemmas -/

theorem opOf_some_entry {g : LGraph} {n : Nat} {op : LOp} (h : g.opOf n = some op) :
    (n, op) ∈ g.nodes := by
  unfold LGraph.opOf at h
  rcases hf : g.nodes.find? (fun pr => pr.1 == n) with _ | pr
  · rw [hf] at h; cases h
  · rw [hf] at h
    have hmem := List.mem_of_find?_eq_some hf
    have hpr := List.find?_some hf
    simp at hpr h
    rcases pr with ⟨a, b⟩
    simp at hpr
    subst hpr
    simp at h
    subst h
    exact hmem

theorem opOf_mem_nodeIds {g : LGraph} {n : Nat} {op : LOp} (h : g.opOf n = some op) :
    n ∈ g.nodeIds := by
  have := opOf_some_entry h
  exact List.mem_map.mpr ⟨(n, op), this, rfl⟩

theorem wf_opOf_lt {g : LGraph} {n : Nat} {op : LOp} (hwf : g.wf = true)
    (h : g.opOf n = some op) : n < g.nextId := by
  have hmem := opOf_some_entry h
  unfold LGraph.wf at hwf
  simp [List.all_eq_true] at hwf
  exact hwf.1.1 n op hmem

theorem wf_edge_lt {g : LGraph} {e : LEdge} (hwf : g.wf = true) (h : e ∈ g.edges) :
    e.src < g.nextId ∧ e.dst < g.nextId := by
  unfold LGraph.wf at hwf
  simp [List.all_eq_true] at hwf
  exact hwf.1.2 e h

theorem wf_indeg_le {g : LGraph} {n : Nat} {op : LOp} (hwf : g.wf = true)
    (h : (n, op) ∈ g.nodes) : (g.sourcesOf n).length ≤ 2 := by
  unfold LGraph.wf at hwf
  simp [List.all_eq_true] at hwf
  unfold LGraph.sourcesOf
  exact hwf.2 n op h

theorem sourcePair_mem {g : LGraph} {n : Nat} {e1 e2 : LEdge}
    (h : g.sourcePair n = some (e1, e2)) :
    e1 ∈ g.edges ∧ e2 ∈ g.edges ∧ e1.dst = n ∧ e2.dst = n := by
  unfold LGraph.sourcePair at h
  rcases hs : g.sourcesOf n with _ | ⟨a, tl⟩
  · rw [hs] at h; cases h
  rcases tl with _ | ⟨b, tl2⟩
  · rw [hs] at h; cases h
  rcases tl2 with _ | ⟨c, tl3⟩
  · rw [hs] at h
    have ha : a ∈ g.sourcesOf n := by rw [hs]; simp
    have hb : b ∈ g.sourcesOf n := by rw [hs]; simp
    unfold LGraph.sourcesOf at ha hb
    have ha' := List.mem_filter.mp ha
    have hb' := List.mem_filter.mp hb
    simp only [beq_iff_eq] at ha' hb'
    simp only [Option.some.injEq] at h
    split at h
    · rw [Prod.mk.injEq] at h
      obtain ⟨rfl, rfl⟩ := h.symm
      exact ⟨ha'.1, hb'.1, ha'.2, hb'.2⟩
    · rw [Prod.mk.injEq] at h
      obtain ⟨rfl, rfl⟩ := h.symm
      exact ⟨hb'.1, ha'.1, hb'.2, ha'.2⟩
  · rw [hs] at h; simp at h

theorem hasEdge_exists {g : LGraph} {a b : Nat} (h : g.hasEdge a b = true) :
    ∃ e ∈ g.edges, e.src = a ∧ e.dst = b := by
  unfold LGraph.hasEdge at h
  rcases List.any_eq_true.mp h with ⟨e, he, hp⟩
  simp at hp
  exact ⟨e, he, hp⟩

theorem hasEdge_intro {g : LGraph} {e : LEdge} (he : e ∈ g.edges) :
    g.hasEdge e.src e.dst = true := by
  unfold LGraph.hasEdge
  exact List.any_eq_true.mpr ⟨e, he, by simp⟩

theorem mulOp_entry_of_opOf {g : LGraph} {n : Nat} (h : g.opOf n = some LOp.mulOp) :
    (n, LOp.mulOp) ∈ g.nodes := opOf_some_entry h

theorem mulCount_pos {g : LGraph} {n : Nat} (h : g.opOf n = some LOp.mulOp) :
    0 < g.mulCount := by
  have hmem := opOf_some_entry h
  unfold LGraph.mulCount
  have : (fun pr => pr.2 == LOp.mulOp) (n, LOp.mulOp) = true := by simp
  calc 0 < 1 := Nat.one_pos
    _ ≤ _ := List.countP_pos.mpr ⟨(n, LOp.mulOp), hmem, this⟩

theorem contiguous_isContiguous (st : ShapeTracker) : st.contiguous.isContiguous = true := by
  unfold ShapeTracker.contiguous ShapeTracker.fromDims ShapeTracker.isContiguous
  simp [List.all_eq_true]

theorem vecmatRewriteBody_step {g : LGraph} {mul sr : Nat} {e1 e2 : LEdge}
    (hwf : g.wf = true) (he1m : e1 ∈ g.edges) (he2m : e2 ∈ g.edges) :
    ∃ A E, StepOK g (vecmatRewriteBody g mul sr e1 e2).kernelId A E ∧
      (vecmatRewriteBody g mul sr e1 e2).graph =
        stepOf g mul sr (vecmatRewriteBody g mul sr e1 e2).kernelId A E := by
  have he1 := (wf_edge_lt hwf he1m).1
  have he2 := (wf_edge_lt hwf he2m).1
  by_cases hC : ((vecmatSrc2Shape e2.shape).isSliced || (vecmatSrc2Shape e2.shape).isPadded) = true
  · have hkid : (vecmatRewriteBody g mul sr e1 e2).kernelId = g.nextId + 1 := by
      simp [vecmatRewriteBody, hC, contiguous_isContiguous, LGraph.addNode, LGraph.addEdge]
    rw [hkid]
    refine ⟨[(g.nextId, LOp.contiguousOp),
             (g.nextId + 1,
              LOp.matVec (gemvKernelName (vecmatSrc2Shape e2.shape).contiguous.isContiguous))],
            [⟨e2.src, g.nextId, 0, 0, vecmatSrc2Shape e2.shape⟩,
             ⟨e1.src, g.nextId + 1, 0, 0, vecmatSrc1Shape e1.shape⟩,
             ⟨g.nextId, g.nextId + 1, 0, 1, (vecmatSrc2Shape e2.shape).contiguous⟩], ?_, ?_⟩
    · refine ⟨Nat.le_succ _, (by omega : g.nextId + 1 < g.nextId + 2), ?_, ?_, ?_⟩
      · intro pr hpr
        fin_cases hpr
        · exact ⟨Nat.le_refl _, (by omega : g.nextId < g.nextId + 2), trivial⟩
        · exact ⟨Nat.le_succ _, (by omega : g.nextId + 1 < g.nextId + 2), trivial⟩
      · intro e he
        fin_cases he
        · exact ⟨Nat.le_refl _, (by omega : g.nextId < g.nextId + 2),
            (by omega : e2.src < g.nextId + 2)⟩
        · exact ⟨Nat.le_succ _, (by omega : g.nextId + 1 < g.nextId + 2),
            (by omega : e1.src < g.nextId + 2)⟩
        · exact ⟨Nat.le_succ _, (by omega : g.nextId + 1 < g.nextId + 2),
            (by omega : g.nextId < g.nextId + 2)⟩
      · intro n
        by_cases h1 : g.nextId = n <;> by_cases h2 : g.nextId + 1 = n <;>
          simp [List.filter_cons, h1, h2] <;> omega
    · simp [vecmatRewriteBody, hC, contiguous_isContiguous, LGraph.addNode, LGraph.addEdge,
        LGraph.moveOutgoingEdge, LGraph.moveReferences, LGraph.removeNode, stepOf,
        List.append_assoc]
  · by_cases hK : (vecmatSrc2Shape e2.shape).isContiguous = true
    · have hkid : (vecmatRewriteBody g mul sr e1 e2).kernelId = g.nextId := by
        simp [vecmatRewriteBody, hC, hK, LGraph.addNode, LGraph.addEdge]
      rw [hkid]
      refine ⟨[(g.nextId,
                LOp.matVec (gemvKernelName (vecmatSrc2Shape e2.shape).isContiguous))],
              [⟨e1.src, g.nextId, 0, 0, vecmatSrc1Shape e1.shape⟩,
               ⟨e2.src, g.nextId, 0, 1, vecmatSrc2Shape e2.shape⟩], ?_, ?_⟩
      · refine ⟨Nat.le_refl _, (by omega : g.nextId < g.nextId + 1), ?_, ?_, ?_⟩
        · intro pr hpr
          fin_cases hpr
          · exact ⟨Nat.le_refl _, (by omega : g.nextId < g.nextId + 1), trivial⟩
        · intro e he
          fin_cases he
          · exact ⟨Nat.le_refl _, (by omega : g.nextId < g.nextId + 1),
              (by omega : e1.src < g.nextId + 1)⟩
          · exact ⟨Nat.le_refl _, (by omega : g.nextId < g.nextId + 1),
              (by omega : e2.src < g.nextId + 1)⟩
        · intro n
          exact le_trans (List.length_filter_le _ _) (by simp)
      · simp [vecmatRewriteBody, hC, hK, LGraph.addNode, LGraph.addEdge,
          LGraph.moveOutgoingEdge, LGraph.moveReferences, LGraph.removeNode, stepOf,
          List.append_assoc]
    · have hkid : (vecmatRewriteBody g mul sr e1 e2).kernelId = g.nextId := by
        simp [vecmatRewriteBody, hC, hK, LGraph.addNode, LGraph.addEdge]
      rw [hkid]
      refine ⟨[(g.nextId, LOp.matVec1Row)],
              [⟨e1.src, g.nextId, 0, 0, vecmatSrc1Shape e1.shape⟩,
               ⟨e2.src, g.nextId, 0, 1, vecmatSrc2Shape e2.shape⟩], ?_, ?_⟩
      · refine ⟨Nat.le_refl _, (by omega : g.nextId < g.nextId + 1), ?_, ?_, ?_⟩
        · intro pr hpr
          fin_cases hpr
          · exact ⟨Nat.le_refl _, (by omega : g.nextId < g.nextId + 1), trivial⟩
        · intro e he
          fin_cases he
          · exact ⟨Nat.le_refl _, (by omega : g.nextId < g.nextId + 1),
              (by omega : e1.src < g.nextId + 1)⟩
          · exact ⟨Nat.le_refl _, (by omega : g.nextId < g.nextId + 1),
              (by omega : e2.src < g.nextId + 1)⟩
        · intro n
          exact le_trans (List.length_filter_le _ _) (by simp)
      · simp [vecmatRewriteBody, hC, hK, LGraph.addNode, LGraph.addEdge,
          LGraph.moveOutgoingEdge, LGraph.moveReferences, LGraph.removeNode, stepOf,
          List.append_assoc]

theorem matmulRewriteBody_step {g : LGraph} {mul sr : Nat} {e1 e2 : LEdge}
    (hwf : g.wf = true) (he1m : e1 ∈ g.edges) (he2m : e2 ∈ g.edges) :
    ∃ A E, StepOK g (matmulRewriteBody g mul sr e1 e2).kernelId A E ∧
      (matmulRewriteBody g mul sr e1 e2).graph =
        stepOf g mul sr (matmulRewriteBody g mul sr e1 e2).kernelId A E := by
  have he1 := (wf_edge_lt hwf he1m).1
  have he2 := (wf_edge_lt hwf he2m).1
  by_cases hC1 : matmulNeedContig1 (matmulSrc1Shape e1.shape) = true
  · by_cases hC2 :
        ((matmulSrc2Shape e2.shape).isSliced || (matmulSrc2Shape e2.shape).isPadded) = true
    · have hkid : (matmulRewriteBody g mul sr e1 e2).kernelId = g.nextId + 2 := by
        simp [matmulRewriteBody, hC1, hC2, LGraph.addNode, LGraph.addEdge]
      rw [hkid]
      refine ⟨[(g.nextId, LOp.contiguousOp), (g.nextId + 1, LOp.contiguousOp),
               (g.nextId + 2, LOp.matmulKernel
                 (gemmKernelName (matmulSrc1Shape e1.shape).contiguous.isContiguous
                   (matmulSrc2Shape e2.shape).contiguous.isContiguous))],
              [⟨e1.src, g.nextId, 0, 0, matmulSrc1Shape e1.shape⟩,
               ⟨e2.src, g.nextId + 1, 0, 0, matmulSrc2Shape e2.shape⟩,
               ⟨g.nextId, g.nextId + 2, 0, 0, (matmulSrc1Shape e1.shape).contiguous⟩,
               ⟨g.nextId + 1, g.nextId + 2, 0, 1, (matmulSrc2Shape e2.shape).contiguous⟩],
              ?_, ?_⟩
      · refine ⟨by omega, (by omega : g.nextId + 2 < g.nextId + 3), ?_, ?_, ?_⟩
        · intro pr hpr
          fin_cases hpr
          · exact ⟨Nat.le_refl _, (by omega : g.nextId < g.nextId + 3), trivial⟩
          · exact ⟨Nat.le_succ _, (by omega : g.nextId + 1 < g.nextId + 3), trivial⟩
          · exact ⟨(by omega : g.nextId ≤ g.nextId + 2), (by omega : g.nextId + 2 < g.nextId + 3), trivial⟩
        · intro e he
          fin_cases he
          · exact ⟨Nat.le_refl _, (by omega : g.nextId < g.nextId + 3),
              (by omega : e1.src < g.nextId + 3)⟩
          · exact ⟨Nat.le_succ _, (by omega : g.nextId + 1 < g.nextId + 3),
              (by omega : e2.src < g.nextId + 3)⟩
          · exact ⟨(by omega : g.nextId ≤ g.nextId + 2), (by omega : g.nextId + 2 < g.nextId + 3),
              (by omega : g.nextId < g.nextId + 3)⟩
          · exact ⟨(by omega : g.nextId ≤ g.nextId + 2), (by omega : g.nextId + 2 < g.nextId + 3),
              (by omega : g.nextId + 1 < g.nextId + 3)⟩
        · intro n
          by_cases h1 : g.nextId = n <;> by_cases h2 : g.nextId + 1 = n <;>
            by_cases h3 : g.nextId + 2 = n <;>
            simp [List.filter_cons, h1, h2, h3] <;> omega
      · simp [matmulRewriteBody, hC1, hC2, LGraph.addNode, LGraph.addEdge,
          LGraph.moveOutgoingEdge, LGraph.moveReferences, LGraph.removeNode, stepOf,
          List.append_assoc]
    · have hkid : (matmulRewriteBody g mul sr e1 e2).kernelId = g.nextId + 1 := by
        simp [matmulRewriteBody, hC1, hC2, LGraph.addNode, LGraph.addEdge]
      rw [hkid]
      refine ⟨[(g.nextId, LOp.contiguousOp),
               (g.nextId + 1, LOp.matmulKernel
                 (gemmKernelName (matmulSrc1Shape e1.shape).contiguous.isContiguous
                   (matmulSrc2Shape e2.shape).isContiguous))],
              [⟨e1.src, g.nextId, 0, 0, matmulSrc1Shape e1.shape⟩,
               ⟨g.nextId, g.nextId + 1, 0, 0, (matmulSrc1Shape e1.shape).contiguous⟩,
               ⟨e2.src, g.nextId + 1, 0, 1, matmulSrc2Shape e2.shape⟩], ?_, ?_⟩
      · refine ⟨Nat.le_succ _, (by omega : g.nextId + 1 < g.nextId + 2), ?_, ?_, ?_⟩
        · intro pr hpr
          fin_cases hpr
          · exact ⟨Nat.le_refl _, (by omega : g.nextId < g.nextId + 2), trivial⟩
          · exact ⟨Nat.le_succ _, (by omega : g.nextId + 1 < g.nextId + 2), trivial⟩
        · intro e he
          fin_cases he
          · exact ⟨Nat.le_refl _, (by omega : g.nextId < g.nextId + 2),
              (by omega : e1.src < g.nextId + 2)⟩
          · exact ⟨Nat.le_succ _, (by omega : g.nextId + 1 < g.nextId + 2),
              (by omega : g.nextId < g.nextId + 2)⟩
          · exact ⟨Nat.le_succ _, (by omega : g.nextId + 1 < g.nextId + 2),
              (by omega : e2.src < g.nextId + 2)⟩
        · intro n
          by_cases h1 : g.nextId = n <;> by_cases h2 : g.nextId + 1 = n <;>
            simp [List.filter_cons, h1, h2] <;> omega
      · simp [matmulRewriteBody, hC1, hC2, LGraph.addNode, LGraph.addEdge,
          LGraph.moveOutgoingEdge, LGraph.moveReferences, LGraph.removeNode, stepOf,
          List.append_assoc]
  · by_cases hC2 :
        ((matmulSrc2Shape e2.shape).isSliced || (matmulSrc2Shape e2.shape).isPadded) = true
    · have hkid : (matmulRewriteBody g mul sr e1 e2).kernelId = g.nextId + 1 := by
        simp [matmulRewriteBody, hC1, hC2, LGraph.addNode, LGraph.addEdge]
      rw [hkid]
      refine ⟨[(g.nextId, LOp.contiguousOp),
               (g.nextId + 1, LOp.matmulKernel
                 (gemmKernelName (matmulSrc1Shape e1.shape).isContiguous
                   (matmulSrc2Shape e2.shape).contiguous.isContiguous))],
              [⟨e2.src, g.nextId, 0, 0, matmulSrc2Shape e2.shape⟩,
               ⟨e1.src, g.nextId + 1, 0, 0, matmulSrc1Shape e1.shape⟩,
               ⟨g.nextId, g.nextId + 1, 0, 1, (matmulSrc2Shape e2.shape).contiguous⟩], ?_, ?_⟩
      · refine ⟨Nat.le_succ _, (by omega : g.nextId + 1 < g.nextId + 2), ?_, ?_, ?_⟩
        · intro pr hpr
          fin_cases hpr
          · exact ⟨Nat.le_refl _, (by omega : g.nextId < g.nextId + 2), trivial⟩
          · exact ⟨Nat.le_succ _, (by omega : g.nextId + 1 < g.nextId + 2), trivial⟩
        · intro e he
          fin_cases he
          · exact ⟨Nat.le_refl _, (by omega : g.nextId < g.nextId + 2),
              (by omega : e2.src < g.nextId + 2)⟩
          · exact ⟨Nat.le_succ _, (by omega : g.nextId + 1 < g.nextId + 2),
              (by omega : e1.src < g.nextId + 2)⟩
          · exact ⟨Nat.le_succ _, (by omega : g.nextId + 1 < g.nextId + 2),
              (by omega : g.nextId < g.nextId + 2)⟩
        · intro n
          by_cases h1 : g.nextId = n <;> by_cases h2 : g.nextId + 1 = n <;>
            simp [List.filter_cons, h1, h2] <;> omega
      · simp [matmulRewriteBody, hC1, hC2, LGraph.addNode, LGraph.addEdge,
          LGraph.moveOutgoingEdge, LGraph.moveReferences, LGraph.removeNode, stepOf,
          List.append_assoc]
    · have hkid : (matmulRewriteBody g mul sr e1 e2).kernelId = g.nextId := by
        simp [matmulRewriteBody, hC1, hC2, LGraph.addNode, LGraph.addEdge]
      rw [hkid]
      refine ⟨[(g.nextId, LOp.matmulKernel
                 (gemmKernelName (matmulSrc1Shape e1.shape).isContiguous
                   (matmulSrc2Shape e2.shape).isContiguous))],
              [⟨e1.src, g.nextId, 0, 0, matmulSrc1Shape e1.shape⟩,
               ⟨e2.src, g.nextId, 0, 1, matmulSrc2Shape e2.shape⟩], ?_, ?_⟩
      · refine ⟨Nat.le_refl _, (by omega : g.nextId < g.nextId + 1), ?_, ?_, ?_⟩
        · intro pr hpr
          fin_cases hpr
          · exact ⟨Nat.le_refl _, (by omega : g.nextId < g.nextId + 1), trivial⟩
        · intro e he
          fin_cases he
          · exact ⟨Nat.le_refl _, (by omega : g.nextId < g.nextId + 1),
              (by omega : e1.src < g.nextId + 1)⟩
          · exact ⟨Nat.le_refl _, (by omega : g.nextId < g.nextId + 1),
              (by omega : e2.src < g.nextId + 1)⟩
        · intro n
          exact le_trans (List.length_filter_le _ _) (by simp)
      · simp [matmulRewriteBody, hC1, hC2, LGraph.addNode, LGraph.addEdge,
          LGraph.moveOutgoingEdge, LGraph.moveReferences, LGraph.removeNode, stepOf,
          List.append_assoc]

/-! # Observations about a rewrite step -/

theorem stepOf_nextId (g : LGraph) (mul sr kid : Nat) (A : List (Nat × LOp)) (E : List LEdge) :
    (stepOf g mul sr kid A E).nextId = g.nextId + A.length := rfl

theorem stepOf_noDelete (g : LGraph) (mul sr kid : Nat) (A : List (Nat × LOp)) (E : List LEdge) :
    (stepOf g mul sr kid A E).noDelete = g.noDelete.map (fun x => if x == sr then kid else x) :=
  rfl

theorem opOf_stepOf_old {g : LGraph} {mul sr kid m : Nat} {A : List (Nat × LOp)} {E : List LEdge}
    (hm : m ≠ mul) (hs : m ≠ sr) (hlt : m < g.nextId) (hA : ∀ pr ∈ A, g.nextId ≤ pr.1) :
    (stepOf g mul sr kid A E).opOf m = g.opOf m := by
  unfold stepOf LGraph.opOf
  simp only
  rw [find?_filter_of_imp _ _ _ (fun x hx => by
      simp only [beq_iff_eq] at hx; simp [bne_iff_ne, hx, hs])]
  rw [find?_filter_of_imp _ _ _ (fun x hx => by
      simp only [beq_iff_eq] at hx; simp [bne_iff_ne, hx, hm])]
  rw [List.find?_append]
  have hAnone : A.find? (fun pr => pr.1 == m) = none := by
    apply List.find?_eq_none.mpr
    intro pr hpr
    have := hA pr hpr
    simp only [beq_iff_eq]
    omega
  rw [hAnone, Option.or_none]

theorem opOf_stepOf_removed {g : LGraph} {mul sr kid x : Nat} {A : List (Nat × LOp)}
    {E : List LEdge} (hx : x = mul ∨ x = sr) :
    (stepOf g mul sr kid A E).opOf x = none := by
  unfold stepOf LGraph.opOf
  simp only
  rw [List.find?_eq_none.mpr]
  · rfl
  · intro pr hpr
    have h2 := List.mem_filter.mp hpr
    have h1 := List.mem_filter.mp h2.1
    simp only [bne_iff_ne, ne_eq, decide_eq_true_eq] at h1 h2
    rcases hx with rfl | rfl
    · simpa using h1.2
    · simpa using h2.2

theorem wf_node_lt {g : LGraph} {pr : Nat × LOp} (hwf : g.wf = true) (h : pr ∈ g.nodes) :
    pr.1 < g.nextId := by
  unfold LGraph.wf at hwf
  simp [List.all_eq_true] at hwf
  exact hwf.1.1 pr.1 pr.2 h

theorem opOf_stepOf_not_added {g : LGraph} {mul sr kid m : Nat} {A : List (Nat × LOp)}
    {E : List LEdge} {op : LOp} (hwf : g.wf = true) (hOK : StepOK g kid A E)
    (h : (stepOf g mul sr kid A E).opOf m = some op)
    (hop : op = LOp.mulOp ∨ ∃ d, op = LOp.sumReduce d) :
    g.opOf m = some op ∧ m ≠ mul ∧ m ≠ sr := by
  have hm : m ≠ mul := by
    rintro rfl
    rw [opOf_stepOf_removed (Or.inl rfl)] at h
    cases h
  have hs : m ≠ sr := by
    rintro rfl
    rw [opOf_stepOf_removed (Or.inr rfl)] at h
    cases h
  refine ⟨?_, hm, hs⟩
  have hlt : m < g.nextId := by
    unfold stepOf LGraph.opOf at h
    simp only at h
    rcases hf : ((g.nodes ++ A).filter (fun pr => pr.1 != mul)).filter (fun pr => pr.1 != sr)
        |>.find? (fun pr => pr.1 == m) with _ | pr
    · rw [hf] at h; cases h
    · rw [hf] at h
      simp only [Option.map_some', Option.some.injEq] at h
      have hmem0 := List.mem_of_find?_eq_some hf
      have hpred := List.find?_some hf
      simp only [beq_iff_eq] at hpred
      have hmem1 := (List.mem_filter.mp hmem0).1
      have hmem2 := (List.mem_filter.mp hmem1).1
      rcases List.mem_append.mp hmem2 with hold | hA
      · rw [← hpred]; exact wf_node_lt hwf hold
      · exfalso
        have hOKA := (hOK.2.2.1 pr hA).2.2
        rw [h] at hOKA
        rcases hop with rfl | ⟨d, rfl⟩ <;> exact hOKA
  rw [← opOf_stepOf_old hm hs hlt (fun pr hpr => (hOK.2.2.1 pr hpr).1)]
  exact h

theorem redirTo_eta (sr kid : Nat) :
    (fun e : LEdge => if e.src == sr then { e with src := kid } else e) = redirTo sr kid := rfl

theorem redirTo_dst (sr kid : Nat) (e : LEdge) : (redirTo sr kid e).dst = e.dst := by
  unfold redirTo; split <;> rfl

theorem redirTo_inputIndex (sr kid : Nat) (e : LEdge) :
    (redirTo sr kid e).inputIndex = e.inputIndex := by
  unfold redirTo; split <;> rfl

theorem redirTo_shape (sr kid : Nat) (e : LEdge) : (redirTo sr kid e).shape = e.shape := by
  unfold redirTo; split <;> rfl

theorem filter_chain_eq {mul sr kid m : Nat} (hm : m ≠ mul) (hs : m ≠ sr)
    (hkm : kid ≠ mul) (hks : kid ≠ sr) (hms : mul ≠ sr) (l : List LEdge) :
    ((((l.map (redirTo sr kid)).filter
        (fun e => e.src != mul && e.dst != mul)).filter
        (fun e => e.src != sr && e.dst != sr)).filter (fun e => e.dst == m)) =
      ((l.filter (fun e => e.dst == m)).filter (fun e => e.src != mul)).map (redirTo sr kid) := by
  induction l with
  | nil => rfl
  | cons e t ih =>
    by_cases h1 : e.dst = m
    · by_cases h3 : e.src = sr
      · simp [-List.filter_filter, redirTo, h1, h3, hm, hs, hkm, hks, hms, Ne.symm hms, ih]
      · by_cases h2 : e.src = mul
        · simp [-List.filter_filter, redirTo, h1, h3, h2, hm, hs, hms, Ne.symm hms, ih]
        · simp [-List.filter_filter, redirTo, h1, h3, h2, hm, hs, hms, Ne.symm hms, ih]
    · by_cases hdmul : e.dst = mul
      · by_cases hdsr : e.dst = sr
        · exact absurd (hdmul.symm.trans hdsr) hms
        · by_cases h3 : e.src = sr <;>
            simp [-List.filter_filter, redirTo, h1, h3, hdmul, hdsr, hm, hs, hkm, hks, hms,
              Ne.symm hm, Ne.symm hs, Ne.symm hms, ih]
      · by_cases hdsr : e.dst = sr <;> by_cases h3 : e.src = sr <;>
          by_cases h2 : e.src = mul <;>
          simp [-List.filter_filter, redirTo, h1, h3, h2, hdmul, hdsr, hm, hs, hkm, hks, hms,
            Ne.symm hm, Ne.symm hs, Ne.symm hms, ih]

theorem sourcesOf_stepOf {g : LGraph} {mul sr kid m : Nat} {A : List (Nat × LOp)} {E : List LEdge}
    (hm : m ≠ mul) (hs : m ≠ sr) (hkm : kid ≠ mul) (hks : kid ≠ sr) (hms : mul ≠ sr)
    (hlt : m < g.nextId) (hE : ∀ e ∈ E, g.nextId ≤ e.dst) :
    (stepOf g mul sr kid A E).sourcesOf m =
      ((g.sourcesOf m).filter (fun e => e.src != mul)).map (redirTo sr kid) := by
  unfold stepOf LGraph.sourcesOf
  simp only [redirTo_eta]
  simp only [List.map_append, List.filter_append]
  have hEnil : ((((E.map (redirTo sr kid)).filter
      (fun e => e.src != mul && e.dst != mul)).filter
      (fun e => e.src != sr && e.dst != sr)).filter (fun e => e.dst == m)) = [] := by
    rw [List.filter_eq_nil_iff]
    intro e he
    have he2 := (List.mem_filter.mp he).1
    have he3 := (List.mem_filter.mp he2).1
    rcases List.mem_map.mp he3 with ⟨e0, he0, rfl⟩
    have := hE e0 he0
    rw [redirTo_dst]
    simp only [beq_iff_eq]
    omega
  rw [hEnil, List.append_nil]
  exact filter_chain_eq hm hs hkm hks hms g.edges

theorem sourcePair_stepOf {g : LGraph} {mul sr kid m : Nat} {A : List (Nat × LOp)} {E : List LEdge}
    (hm : m ≠ mul) (hs : m ≠ sr) (hkm : kid ≠ mul) (hks : kid ≠ sr) (hms : mul ≠ sr)
    (hlt : m < g.nextId) (hE : ∀ e ∈ E, g.nextId ≤ e.dst)
    (hNoMul : ∀ e ∈ g.sourcesOf m, e.src ≠ mul) :
    (stepOf g mul sr kid A E).sourcePair m =
      (g.sourcePair m).map (fun pr => (redirTo sr kid pr.1, redirTo sr kid pr.2)) := by
  have hfid : (g.sourcesOf m).filter (fun e => e.src != mul) = g.sourcesOf m :=
    List.filter_eq_self.mpr (fun e he => by simpa [bne_iff_ne] using hNoMul e he)
  have hsrc := sourcesOf_stepOf (A := A) (E := E) hm hs hkm hks hms hlt hE
  rw [hfid] at hsrc
  unfold LGraph.sourcePair
  rw [hsrc]
  rcases hls : g.sourcesOf m with _ | ⟨a, tl⟩
  · simp
  rcases tl with _ | ⟨b, tl2⟩
  · simp
  rcases tl2 with _ | ⟨c, tl3⟩
  · simp only [List.map_cons, List.map_nil, Option.map_some']
    rw [redirTo_inputIndex, redirTo_inputIndex]
    split <;> simp
  · simp

theorem hasEdge_stepOf {g : LGraph} {mul sr kid m s : Nat} {A : List (Nat × LOp)} {E : List LEdge}
    (hm : m ≠ mul) (hs : m ≠ sr) (hmk : m ≠ kid) (hsm : s ≠ mul) (hss : s ≠ sr)
    (hslt : s < g.nextId) (hE : ∀ e ∈ E, g.nextId ≤ e.dst) :
    (stepOf g mul sr kid A E).hasEdge m s = g.hasEdge m s := by
  rcases hb : g.hasEdge m s with _ | _
  · -- no edge in g: show none in the step either
    rcases hb' : (stepOf g mul sr kid A E).hasEdge m s with _ | _
    · rfl
    · exfalso
      rcases hasEdge_exists hb' with ⟨e', he', hsrc, hdst⟩
      unfold stepOf at he'
      simp only [redirTo_eta] at he'
      have he2 := (List.mem_filter.mp he').1
      have he3 := (List.mem_filter.mp he2).1
      rcases List.mem_map.mp he3 with ⟨e0, he0, rfl⟩
      rcases List.mem_append.mp he0 with hold | hEmem
      · have hdst0 : e0.dst = s := by rw [← hdst, redirTo_dst]
        have hsrc0 : e0.src = m := by
          unfold redirTo at hsrc
          split at hsrc
          · exact absurd hsrc.symm hmk
          · exact hsrc
        have : g.hasEdge m s = true := by
          have := hasEdge_intro hold
          rw [hdst0, hsrc0] at this
          exact this
        rw [hb] at this
        cases this
      · have := hE e0 hEmem
        have hdst0 : e0.dst = s := by rw [← hdst, redirTo_dst]
        omega
  · rcases hasEdge_exists hb with ⟨e, he, hsrc, hdst⟩
    have hr : redirTo sr kid e = e := by simp [redirTo, hsrc, hs]
    have hmem : e ∈ (stepOf g mul sr kid A E).edges := by
      unfold stepOf
      simp only
      rw [List.mem_filter, List.mem_filter]
      refine ⟨⟨?_, ?_⟩, ?_⟩
      · exact List.mem_map.mpr ⟨e, List.mem_append.mpr (Or.inl he), hr⟩
      · simp [bne_iff_ne, hsrc, hdst, hm, hsm]
      · simp [bne_iff_ne, hsrc, hdst, hs, hss]
    have := hasEdge_intro hmem
    rw [hsrc, hdst] at this
    exact this

theorem noDelete_stepOf_mem {g : LGraph} {mul sr kid m : Nat} {A : List (Nat × LOp)}
    {E : List LEdge} (h : m ∈ g.noDelete) (hms : m ≠ sr) :
    m ∈ (stepOf g mul sr kid A E).noDelete := by
  rw [stepOf_noDelete]
  exact List.mem_map.mpr ⟨m, h, by simp [hms]⟩

theorem noDelete_stepOf_back {g : LGraph} {mul sr kid m : Nat} {A : List (Nat × LOp)}
    {E : List LEdge} (h : m ∈ (stepOf g mul sr kid A E).noDelete) (hmk : m ≠ kid) :
    m ∈ g.noDelete := by
  rw [stepOf_noDelete] at h
  rcases List.mem_map.mp h with ⟨x, hx, hxe⟩
  by_cases hxsr : x = sr
  · rw [if_pos (by simp [hxsr])] at hxe
    exact absurd hxe.symm hmk
  · rw [if_neg (by simp [hxsr])] at hxe
    rwa [← hxe]

/-! # Matches and rewrite steps -/

theorem matchesPattern_iff {g : LGraph} {p : IdiomPattern} {m s : Nat} :
    matchesPattern g p m s = true ↔
      g.opOf m = some LOp.mulOp ∧
      (∃ a b, g.sourcePair m = some (a, b) ∧
        matchShapes2 p.shapes1 p.shapes2 a.shape.shape b.shape.shape = true ∧
        matchFakePat p.fakes1 a.shape.logicalFakes = true ∧
        matchFakePat p.fakes2 b.shape.logicalFakes = true) ∧
      g.hasEdge m s = true ∧
      g.opOf s = some (LOp.sumReduce p.srDim) := by
  unfold matchesPattern
  rcases hsp : g.sourcePair m with _ | ⟨a, b⟩ <;>
    simp [hsp, Bool.and_eq_true, and_assoc]

theorem matchesPattern_mulOp {g : LGraph} {p : IdiomPattern} {m s : Nat}
    (h : matchesPattern g p m s = true) : g.opOf m = some LOp.mulOp :=
  (matchesPattern_iff.mp h).1

theorem matchesPattern_srOp {g : LGraph} {p : IdiomPattern} {m s : Nat}
    (h : matchesPattern g p m s = true) : g.opOf s = some (LOp.sumReduce p.srDim) :=
  (matchesPattern_iff.mp h).2.2.2

theorem matchesPattern_ne {g : LGraph} {p : IdiomPattern} {m s : Nat}
    (h : matchesPattern g p m s = true) : m ≠ s := by
  intro he
  have h1 := matchesPattern_mulOp h
  have h2 := matchesPattern_srOp h
  subst he
  rw [h1] at h2
  simp at h2

/-- The `Mul` and `SumReduce` of two matches are never the same node. -/
theorem match_mul_ne_sr {g : LGraph} {p q : IdiomPattern} {m s m' s' : Nat}
    (h : matchesPattern g p m s = true) (h' : matchesPattern g q m' s' = true) : m ≠ s' := by
  intro he
  have h1 := matchesPattern_mulOp h
  have h2 := matchesPattern_srOp h'
  rw [← he] at h2
  rw [h1] at h2
  simp at h2

theorem matchesPattern_stepOf_back {g : LGraph} {mul0 sr0 kid : Nat} {A : List (Nat × LOp)}
    {E : List LEdge} {p : IdiomPattern} {m s : Nat} {d0 : Nat}
    (hwf : g.wf = true) (hOK : StepOK g kid A E)
    (hmul0 : g.opOf mul0 = some LOp.mulOp) (hsr0 : g.opOf sr0 = some (LOp.sumReduce d0))
    (h : matchesPattern (stepOf g mul0 sr0 kid A E) p m s = true) :
    matchesPattern g p m s = true ∧ m ≠ mul0 ∧ m ≠ sr0 ∧ s ≠ mul0 ∧ s ≠ sr0 := by
  have hms0 : mul0 ≠ sr0 := by
    rintro rfl
    rw [hmul0] at hsr0
    simp at hsr0
  have hkid0 : g.nextId ≤ kid := hOK.1
  obtain ⟨hA, ⟨a', b', hsp', hsh, hf1, hf2⟩, hedge, hSR⟩ := matchesPattern_iff.mp h
  obtain ⟨hAm, hm1, hm2⟩ := opOf_stepOf_not_added hwf hOK hA (Or.inl rfl)
  obtain ⟨hSm, hs1, hs2⟩ := opOf_stepOf_not_added hwf hOK hSR (Or.inr ⟨p.srDim, rfl⟩)
  have hmlt : m < g.nextId := wf_opOf_lt hwf hAm
  have hslt : s < g.nextId := wf_opOf_lt hwf hSm
  have hmul0lt : mul0 < g.nextId := wf_opOf_lt hwf hmul0
  have hsr0lt : sr0 < g.nextId := wf_opOf_lt hwf hsr0
  have hkm : kid ≠ mul0 := by have := hOK.1; omega
  have hks : kid ≠ sr0 := by have := hOK.1; omega
  have hEdst : ∀ e ∈ E, g.nextId ≤ e.dst := fun e he => (hOK.2.2.2.1 e he).1
  -- the step's source list of m is the redirected image of g's
  have hsrcs := @sourcesOf_stepOf g _ _ kid _ A E
    hm1 hm2 hkm hks hms0 hmlt hEdst
  -- `sourcePair` succeeded, so no source of `m` was an edge from `mul0`
  have hlen2 : ((stepOf g mul0 sr0 kid A E).sourcesOf m).length = 2 := by
    unfold LGraph.sourcePair at hsp'
    rcases hls : (stepOf g mul0 sr0 kid A E).sourcesOf m with _ | ⟨x, _ | ⟨y, _ | ⟨z, tl⟩⟩⟩
    · rw [hls] at hsp'; simp at hsp'
    · rw [hls] at hsp'; simp at hsp'
    · rfl
    · rw [hls] at hsp'; simp at hsp' 
  have hle2 : (g.sourcesOf m).length ≤ 2 := wf_indeg_le hwf (opOf_some_entry hAm)
  have hfl : ((g.sourcesOf m).filter (fun e => e.src != mul0)).length = (g.sourcesOf m).length := by
    rw [hsrcs] at hlen2
    rw [List.length_map] at hlen2
    have := List.length_filter_le (fun e => e.src != mul0) (g.sourcesOf m)
    omega
  have hNoMul : ∀ e ∈ g.sourcesOf m, e.src ≠ mul0 := by
    intro e he
    have := List.filter_length_eq_length.mp hfl e he
    simpa [bne_iff_ne] using this
  have hpair := @sourcePair_stepOf g _ _ kid _ A E
    hm1 hm2 hkm hks hms0 hmlt hEdst hNoMul
  rw [hpair] at hsp'
  rcases Option.map_eq_some'.mp hsp' with ⟨⟨a0, b0⟩, hsp0, heq0⟩
  simp only [Prod.mk.injEq] at heq0
  have hedge0 : g.hasEdge m s = true := by
    rw [← @hasEdge_stepOf g _ _ kid _ _ A E
      hm1 hm2 (by omega) hs1 hs2 hslt hEdst]
    exact hedge
  refine ⟨matchesPattern_iff.mpr ⟨hAm, ⟨a0, b0, hsp0, ?_, ?_, ?_⟩, hedge0, hSm⟩, hm1, hm2, hs1, hs2⟩
  · rw [← heq0.1, ← heq0.2, redirTo_shape, redirTo_shape] at hsh
    exact hsh
  · rw [← heq0.1, redirTo_shape] at hf1
    exact hf1
  · rw [← heq0.2, redirTo_shape] at hf2
    exact hf2

theorem matchesPattern_stepOf_fwd {g : LGraph} {mul0 sr0 kid : Nat} {A : List (Nat × LOp)}
    {E : List LEdge} {p : IdiomPattern} {m s : Nat} {d0 : Nat}
    (hwf : g.wf = true) (hOK : StepOK g kid A E)
    (hmul0 : g.opOf mul0 = some LOp.mulOp) (hsr0 : g.opOf sr0 = some (LOp.sumReduce d0))
    (hmatch : matchesPattern g p m s = true) (hm0 : m ≠ mul0) (hss0 : s ≠ sr0)
    (hNoMul : ∀ e ∈ g.sourcesOf m, e.src ≠ mul0) :
    matchesPattern (stepOf g mul0 sr0 kid A E) p m s = true := by
  have hms0 : mul0 ≠ sr0 := by
    rintro rfl
    rw [hmul0] at hsr0
    simp at hsr0
  have hkid0 : g.nextId ≤ kid := hOK.1
  obtain ⟨hA, ⟨a, b, hsp, hsh, hf1, hf2⟩, hedge, hSR⟩ := matchesPattern_iff.mp hmatch
  have hm2 : m ≠ sr0 := by
    rintro rfl
    rw [hA] at hsr0
    simp at hsr0
  have hs1 : s ≠ mul0 := by
    rintro rfl
    rw [hSR] at hmul0
    simp at hmul0
  have hmlt : m < g.nextId := wf_opOf_lt hwf hA
  have hslt : s < g.nextId := wf_opOf_lt hwf hSR
  have hkm : kid ≠ mul0 := by have h1 := hOK.1; have := wf_opOf_lt hwf hmul0; omega
  have hks : kid ≠ sr0 := by have h1 := hOK.1; have := wf_opOf_lt hwf hsr0; omega
  have hEdst : ∀ e ∈ E, g.nextId ≤ e.dst := fun e he => (hOK.2.2.2.1 e he).1
  have hAnodes : ∀ pr ∈ A, g.nextId ≤ pr.1 := fun pr hpr => (hOK.2.2.1 pr hpr).1
  refine matchesPattern_iff.mpr ⟨?_, ?_, ?_, ?_⟩
  · rw [opOf_stepOf_old hm0 hm2 hmlt hAnodes]
    exact hA
  · refine ⟨redirTo sr0 kid a, redirTo sr0 kid b, ?_, ?_, ?_, ?_⟩
    · rw [sourcePair_stepOf hm0 hm2 hkm hks hms0 hmlt hEdst hNoMul, hsp]
      rfl
    · rwa [redirTo_shape, redirTo_shape]
    · rwa [redirTo_shape]
    · rwa [redirTo_shape]
  · rw [hasEdge_stepOf hm0 hm2 (by omega) hs1 hss0 hslt hEdst]
    exact hedge
  · rw [opOf_stepOf_old hs1 hss0 hslt hAnodes]
    exact hSR

theorem sourcesOf_stepOf_new_len {g : LGraph} {mul0 sr0 kid m : Nat} {A : List (Nat × LOp)}
    {E : List LEdge} (hwf : g.wf = true) (hge : g.nextId ≤ m) :
    ((stepOf g mul0 sr0 kid A E).sourcesOf m).length ≤
      (E.filter (fun e => e.dst == m)).length := by
  unfold stepOf LGraph.sourcesOf
  simp only [redirTo_eta]
  rw [← List.countP_eq_length_filter, ← List.countP_eq_length_filter]
  rw [List.countP_filter, List.countP_filter]
  rw [List.countP_map, List.countP_append]
  simp only [Function.comp_def]
  have hold : g.edges.countP (fun e =>
      (redirTo sr0 kid e).dst == m && ((redirTo sr0 kid e).src != sr0 &&
        (redirTo sr0 kid e).dst != sr0) && ((redirTo sr0 kid e).src != mul0 &&
        (redirTo sr0 kid e).dst != mul0)) = 0 := by
    rw [List.countP_eq_zero]
    intro e he
    have hlt := (wf_edge_lt hwf he).2
    simp only [redirTo_dst, Bool.and_eq_true, beq_iff_eq, not_and, and_imp]
    intro h1
    omega
  have hE : E.countP (fun e =>
      (redirTo sr0 kid e).dst == m && ((redirTo sr0 kid e).src != sr0 &&
        (redirTo sr0 kid e).dst != sr0) && ((redirTo sr0 kid e).src != mul0 &&
        (redirTo sr0 kid e).dst != mul0)) ≤ E.countP (fun e => e.dst == m) := by
    apply List.countP_mono_left
    intro e _ h
    simp only [redirTo_dst, Bool.and_eq_true] at h
    exact h.1.1
  rw [hold, Nat.zero_add, List.countP_eq_length_filter] at *
  exact hE

theorem wf_stepOf {g : LGraph} {mul0 sr0 kid d0 : Nat} {A : List (Nat × LOp)} {E : List LEdge}
    (hwf : g.wf = true) (hOK : StepOK g kid A E)
    (hmul0 : g.opOf mul0 = some LOp.mulOp) (hsr0 : g.opOf sr0 = some (LOp.sumReduce d0)) :
    (stepOf g mul0 sr0 kid A E).wf = true := by
  have hms0 : mul0 ≠ sr0 := by
    rintro rfl
    rw [hmul0] at hsr0
    simp at hsr0
  have hmul0lt : mul0 < g.nextId := wf_opOf_lt hwf hmul0
  have hsr0lt : sr0 < g.nextId := wf_opOf_lt hwf hsr0
  have hkid0 : g.nextId ≤ kid := hOK.1
  have hkid1 : kid < g.nextId + A.length := hOK.2.1
  unfold LGraph.wf
  simp only [List.all_eq_true, Bool.and_eq_true, decide_eq_true_eq]
  refine ⟨⟨?_, ?_⟩, ?_⟩
  · -- node ids in bounds
    intro pr hpr
    have h2 := (List.mem_filter.mp hpr).1
    have h3 := (List.mem_filter.mp h2).1
    rw [stepOf_nextId]
    rcases List.mem_append.mp h3 with hold | hA
    · have := wf_node_lt hwf hold
      omega
    · exact (hOK.2.2.1 pr hA).2.1
  · -- edge endpoints in bounds
    intro e' he'
    unfold stepOf at he'
    simp only [redirTo_eta] at he'
    have h2 := (List.mem_filter.mp he').1
    have h3 := (List.mem_filter.mp h2).1
    rcases List.mem_map.mp h3 with ⟨e0, he0, rfl⟩
    rw [stepOf_nextId]
    rcases List.mem_append.mp he0 with hold | hE
    · have hb := wf_edge_lt hwf hold
      unfold redirTo
      split
      · simp only
        omega
      · omega
    · have hb := hOK.2.2.2.1 e0 hE
      unfold redirTo
      split
      · simp only
        omega
      · omega
  · -- in-degree bound
    intro pr hpr
    have h2 := (List.mem_filter.mp hpr).1
    have h3 := (List.mem_filter.mp h2).1
    have hprm : pr.1 ≠ mul0 := by
      have := (List.mem_filter.mp h2).2
      simpa [bne_iff_ne] using this
    have hprs : pr.1 ≠ sr0 := by
      have := (List.mem_filter.mp hpr).2
      simpa [bne_iff_ne] using this
    show ((stepOf g mul0 sr0 kid A E).sourcesOf pr.1).length ≤ 2
    rcases List.mem_append.mp h3 with hold | hA
    · have hkm : kid ≠ mul0 := by omega
      have hks : kid ≠ sr0 := by omega
      have hprlt : pr.1 < g.nextId := wf_node_lt hwf hold
      have hEdst : ∀ e ∈ E, g.nextId ≤ e.dst := fun e he => (hOK.2.2.2.1 e he).1
      rw [sourcesOf_stepOf hprm hprs hkm hks hms0 hprlt hEdst]
      rw [List.length_map]
      calc ((g.sourcesOf pr.1).filter (fun e => e.src != mul0)).length
          ≤ (g.sourcesOf pr.1).length := List.length_filter_le _ _
        _ ≤ 2 := wf_indeg_le hwf hold
    · have hge : g.nextId ≤ pr.1 := (hOK.2.2.1 pr hA).1
      calc ((stepOf g mul0 sr0 kid A E).sourcesOf pr.1).length
          ≤ (E.filter (fun e => e.dst == pr.1)).length := sourcesOf_stepOf_new_len hwf hge
        _ ≤ 2 := hOK.2.2.2.2 pr.1

theorem mulCount_stepOf_lt {g : LGraph} {mul0 sr0 kid : Nat} {A : List (Nat × LOp)}
    {E : List LEdge} (hOK : StepOK g kid A E) (hmul0 : g.opOf mul0 = some LOp.mulOp) :
    (stepOf g mul0 sr0 kid A E).mulCount < g.mulCount := by
  unfold LGraph.mulCount stepOf
  simp only
  rw [List.countP_filter, List.countP_filter, List.countP_append]
  have hA0 : A.countP (fun pr =>
      (pr.2 == LOp.mulOp) && pr.1 != sr0 && pr.1 != mul0) = 0 := by
    rw [List.countP_eq_zero]
    intro pr hpr hcontra
    have hok := (hOK.2.2.1 pr hpr).2.2
    simp only [Bool.and_eq_true, beq_iff_eq] at hcontra
    rw [hcontra.1.1] at hok
    exact hok
  rw [hA0, Nat.add_zero]
  exact countP_lt_of_mem_anti g.nodes (fun pr => pr.2 == LOp.mulOp)
    (fun pr => (pr.2 == LOp.mulOp) && pr.1 != sr0 && pr.1 != mul0)
    (fun pr h => by simp only [Bool.and_eq_true] at h; exact h.1.1)
    (mul0, LOp.mulOp) (opOf_some_entry hmul0) (by simp) (by simp)

/-! # The search loop -/

theorem findMatch_some {g : LGraph} {pats : List IdiomPattern} {p : IdiomPattern} {m s : Nat}
    (h : findMatch g pats = some (p, m, s)) :
    p ∈ pats ∧ matchesPattern g p m s = true ∧ m ∉ g.noDelete := by
  unfold findMatch at h
  rcases List.exists_of_findSome?_eq_some h with ⟨p', hp', hf⟩
  rcases Option.map_eq_some'.mp hf with ⟨ms, hms, heq⟩
  rcases List.exists_of_findSome?_eq_some hms with ⟨m', hm', hf2⟩
  by_cases hnd : g.noDelete.contains m'
  · rw [if_pos hnd] at hf2
    cases hf2
  · rw [if_neg hnd] at hf2
    rcases Option.map_eq_some'.mp hf2 with ⟨s', hfind, heq2⟩
    have hmatch := List.find?_some hfind
    rw [← heq2] at heq
    simp only [Prod.mk.injEq] at heq
    obtain ⟨rfl, rfl, rfl⟩ := heq
    refine ⟨hp', hmatch, ?_⟩
    simpa using hnd

theorem findMatch_none {g : LGraph} {pats : List IdiomPattern} (h : findMatch g pats = none) :
    ∀ p ∈ pats, ∀ m s, matchesPattern g p m s = true → m ∈ g.noDelete := by
  intro p hp m s hmatch
  unfold findMatch at h
  have h1 := List.findSome?_eq_none_iff.mp h p hp
  rw [Option.map_eq_none'] at h1
  have hmmem : m ∈ g.nodeIds := opOf_mem_nodeIds (matchesPattern_mulOp hmatch)
  have hsmem : s ∈ g.nodeIds := opOf_mem_nodeIds (matchesPattern_srOp hmatch)
  have h2 := List.findSome?_eq_none_iff.mp h1 m hmmem
  by_cases hnd : g.noDelete.contains m
  · simpa using hnd
  · rw [if_neg hnd] at h2
    rw [Option.map_eq_none'] at h2
    have h3 := List.find?_eq_none.mp h2 s hsmem
    exact absurd hmatch h3

theorem vecmatRewrite_eq_body {g : LGraph} {m s : Nat} {a b : LEdge}
    (hsp : g.sourcePair m = some (a, b)) :
    vecmatRewrite g m s = (vecmatRewriteBody g m s a b).graph := by
  unfold vecmatRewrite vecmatRewriteCore
  rw [hsp]
  rfl

theorem matmulRewrite_eq_body {g : LGraph} {m s : Nat} {a b : LEdge}
    (hsp : g.sourcePair m = some (a, b)) :
    matmulRewrite g m s = (matmulRewriteBody g m s a b).graph := by
  unfold matmulRewrite matmulRewriteCore
  rw [hsp]
  rfl

/-- Every rewrite the first loop performs is a step in normal form. -/
theorem vecmatRewrite_step {g : LGraph} {p : IdiomPattern} {m s : Nat} (hwf : g.wf = true)
    (hmatch : matchesPattern g p m s = true) :
    ∃ kid A E, StepOK g kid A E ∧ vecmatRewrite g m s = stepOf g m s kid A E := by
  obtain ⟨-, ⟨a, b, hsp, -, -, -⟩, -, -⟩ := matchesPattern_iff.mp hmatch
  obtain ⟨ham, hbm, -, -⟩ := sourcePair_mem hsp
  obtain ⟨A, E, hOK, heq⟩ := @vecmatRewriteBody_step _ m s _ _ hwf ham hbm
  exact ⟨(vecmatRewriteBody g m s a b).kernelId, A, E, hOK,
    (vecmatRewrite_eq_body hsp).trans heq⟩

/-- Every rewrite the second loop performs is a step in normal form. -/
theorem matmulRewrite_step {g : LGraph} {p : IdiomPattern} {m s : Nat} (hwf : g.wf = true)
    (hmatch : matchesPattern g p m s = true) :
    ∃ kid A E, StepOK g kid A E ∧ matmulRewrite g m s = stepOf g m s kid A E := by
  obtain ⟨-, ⟨a, b, hsp, -, -, -⟩, -, -⟩ := matchesPattern_iff.mp hmatch
  obtain ⟨ham, hbm, -, -⟩ := sourcePair_mem hsp
  obtain ⟨A, E, hOK, heq⟩ := @matmulRewriteBody_step _ m s _ _ hwf ham hbm
  exact ⟨(matmulRewriteBody g m s a b).kernelId, A, E, hOK,
    (matmulRewrite_eq_body hsp).trans heq⟩

theorem vecmatLoop_inv (P : LGraph → Prop)
    (hstep : ∀ g pms, findMatch g vecmatPatterns = some pms → P g →
      P (vecmatRewrite g pms.2.1 pms.2.2)) :
    ∀ fuel g, P g → P (vecmatLoop fuel g) := by
  intro fuel
  induction fuel with
  | zero => intro g h; exact h
  | succ n ih =>
    intro g h
    unfold vecmatLoop
    rcases hf : findMatch g vecmatPatterns with _ | pms
    · exact h
    · exact ih _ (hstep g pms hf h)

theorem matmulLoop_inv (P : LGraph → Prop)
    (hstep : ∀ g pms, findMatch g matmulPatterns = some pms → P g →
      P (matmulRewrite g pms.2.1 pms.2.2)) :
    ∀ fuel g, P g → P (matmulLoop fuel g) := by
  intro fuel
  induction fuel with
  | zero => intro g h; exact h
  | succ n ih =>
    intro g h
    unfold matmulLoop
    rcases hf : findMatch g matmulPatterns with _ | pms
    · exact h
    · exact ih _ (hstep g pms hf h)

theorem wf_vecmatLoop {fuel : Nat} {g : LGraph} (hwf : g.wf = true) :
    (vecmatLoop fuel g).wf = true := by
  refine vecmatLoop_inv (fun h => h.wf = true) ?_ fuel g hwf
  intro g' pms hf hwf'
  obtain ⟨-, hmatch, -⟩ := findMatch_some (p := pms.1) (m := pms.2.1) (s := pms.2.2)
    (by rw [hf])
  obtain ⟨kid, A, E, hOK, heq⟩ := vecmatRewrite_step hwf' hmatch
  rw [heq]
  exact wf_stepOf hwf' hOK (matchesPattern_mulOp hmatch) (matchesPattern_srOp hmatch)

theorem wf_matmulLoop {fuel : Nat} {g : LGraph} (hwf : g.wf = true) :
    (matmulLoop fuel g).wf = true := by
  refine matmulLoop_inv (fun h => h.wf = true) ?_ fuel g hwf
  intro g' pms hf hwf'
  obtain ⟨-, hmatch, -⟩ := findMatch_some (p := pms.1) (m := pms.2.1) (s := pms.2.2)
    (by rw [hf])
  obtain ⟨kid, A, E, hOK, heq⟩ := matmulRewrite_step hwf' hmatch
  rw [heq]
  exact wf_stepOf hwf' hOK (matchesPattern_mulOp hmatch) (matchesPattern_srOp hmatch)

theorem vecmatLoop_exhausts : ∀ (fuel : Nat) (g : LGraph), g.wf = true →
    g.mulCount ≤ fuel → findMatch (vecmatLoop fuel g) vecmatPatterns = none := by
  intro fuel
  induction fuel with
  | zero =>
    intro g hwf hc
    rcases hf : findMatch g vecmatPatterns with _ | pms
    · exact hf
    · exfalso
      obtain ⟨-, hmatch, -⟩ := findMatch_some (p := pms.1) (m := pms.2.1) (s := pms.2.2)
        (by rw [hf])
      have := mulCount_pos (matchesPattern_mulOp hmatch)
      omega
  | succ n ih =>
    intro g hwf hc
    unfold vecmatLoop
    rcases hf : findMatch g vecmatPatterns with _ | pms
    · exact hf
    · obtain ⟨-, hmatch, -⟩ := findMatch_some (p := pms.1) (m := pms.2.1) (s := pms.2.2)
        (by rw [hf])
      obtain ⟨kid, A, E, hOK, heq⟩ := vecmatRewrite_step hwf hmatch
      have hwf' : (vecmatRewrite g pms.2.1 pms.2.2).wf = true := by
        rw [heq]
        exact wf_stepOf hwf hOK (matchesPattern_mulOp hmatch) (matchesPattern_srOp hmatch)
      have hlt : (vecmatRewrite g pms.2.1 pms.2.2).mulCount < g.mulCount := by
        rw [heq]
        exact mulCount_stepOf_lt hOK (matchesPattern_mulOp hmatch)
      exact ih _ hwf' (by omega)

theorem matmulLoop_exhausts : ∀ (fuel : Nat) (g : LGraph), g.wf = true →
    g.mulCount ≤ fuel → findMatch (matmulLoop fuel g) matmulPatterns = none := by
  intro fuel
  induction fuel with
  | zero =>
    intro g hwf hc
    rcases hf : findMatch g matmulPatterns with _ | pms
    · exact hf
    · exfalso
      obtain ⟨-, hmatch, -⟩ := findMatch_some (p := pms.1) (m := pms.2.1) (s := pms.2.2)
        (by rw [hf])
      have := mulCount_pos (matchesPattern_mulOp hmatch)
      omega
  | succ n ih =>
    intro g hwf hc
    unfold matmulLoop
    rcases hf : findMatch g matmulPatterns with _ | pms
    · exact hf
    · obtain ⟨-, hmatch, -⟩ := findMatch_some (p := pms.1) (m := pms.2.1) (s := pms.2.2)
        (by rw [hf])
      obtain ⟨kid, A, E, hOK, heq⟩ := matmulRewrite_step hwf hmatch
      have hwf' : (matmulRewrite g pms.2.1 pms.2.2).wf = true := by
        rw [heq]
        exact wf_stepOf hwf hOK (matchesPattern_mulOp hmatch) (matchesPattern_srOp hmatch)
      have hlt : (matmulRewrite g pms.2.1 pms.2.2).mulCount < g.mulCount := by
        rw [heq]
        exact mulCount_stepOf_lt hOK (matchesPattern_mulOp hmatch)
      exact ih _ hwf' (by omega)

/-- A rewrite step never creates a new unpinned idiom match: if no pattern of
`pats` matched with an unpinned `Mul` before the step, none does after. -/
theorem stepOf_no_new_unpinned {g : LGraph} {mul0 sr0 kid d0 : Nat} {A : List (Nat × LOp)}
    {E : List LEdge} {pats : List IdiomPattern} (hwf : g.wf = true) (hOK : StepOK g kid A E)
    (hmul0 : g.opOf mul0 = some LOp.mulOp) (hsr0 : g.opOf sr0 = some (LOp.sumReduce d0))
    (hnone : findMatch g pats = none) :
    findMatch (stepOf g mul0 sr0 kid A E) pats = none := by
  rcases hf : findMatch (stepOf g mul0 sr0 kid A E) pats with _ | pms
  · rfl
  · exfalso
    obtain ⟨hp, hmatch', hnd'⟩ := findMatch_some (p := pms.1) (m := pms.2.1) (s := pms.2.2)
      (by rw [hf])
    obtain ⟨hmatch, hm1, hm2, -, -⟩ :=
      matchesPattern_stepOf_back hwf hOK hmul0 hsr0 hmatch'
    have hmnd : pms.2.1 ∈ g.noDelete := findMatch_none hnone pms.1 hp _ _ hmatch
    exact hnd' (noDelete_stepOf_mem hmnd hm2)

/-- The second loop never reintroduces a GEMV idiom match. -/
theorem vecmatNone_matmulLoop {fuel : Nat} {g : LGraph} (hwf : g.wf = true)
    (hnone : findMatch g vecmatPatterns = none) :
    findMatch (matmulLoop fuel g) vecmatPatterns = none := by
  have := matmulLoop_inv
    (fun h => h.wf = true ∧ findMatch h vecmatPatterns = none) ?_ fuel g ⟨hwf, hnone⟩
  · exact this.2
  · intro g' pms hf hP
    obtain ⟨-, hmatch, -⟩ := findMatch_some (p := pms.1) (m := pms.2.1) (s := pms.2.2)
      (by rw [hf])
    obtain ⟨kid, A, E, hOK, heq⟩ := matmulRewrite_step hP.1 hmatch
    rw [heq]
    exact ⟨wf_stepOf hP.1 hOK (matchesPattern_mulOp hmatch) (matchesPattern_srOp hmatch),
      stepOf_no_new_unpinned hP.1 hOK (matchesPattern_mulOp hmatch)
        (matchesPattern_srOp hmatch) hP.2⟩

theorem nodeIds_stepOf_back {g : LGraph} {mul0 sr0 kid m : Nat} {A : List (Nat × LOp)}
    {E : List LEdge} (h : m ∈ (stepOf g mul0 sr0 kid A E).nodeIds) :
    m ∈ g.nodeIds ∨ (∃ pr ∈ A, pr.1 = m) := by
  unfold LGraph.nodeIds at h ⊢
  rcases List.mem_map.mp h with ⟨pr, hpr, rfl⟩
  have h2 := (List.mem_filter.mp hpr).1
  have h3 := (List.mem_filter.mp h2).1
  rcases List.mem_append.mp h3 with hold | hA
  · exact Or.inl (List.mem_map.mpr ⟨pr, hold, rfl⟩)
  · exact Or.inr ⟨pr, hA, rfl⟩

theorem nodeIds_stepOf_removed {g : LGraph} {mul0 sr0 kid x : Nat} {A : List (Nat × LOp)}
    {E : List LEdge} (hx : x = mul0 ∨ x = sr0) :
    x ∉ (stepOf g mul0 sr0 kid A E).nodeIds := by
  intro hmem
  unfold LGraph.nodeIds at hmem
  rcases List.mem_map.mp hmem with ⟨pr, hpr, rfl⟩
  have h1 := (List.mem_filter.mp hpr).2
  have h2 := (List.mem_filter.mp (List.mem_filter.mp hpr).1).2
  simp only [bne_iff_ne, ne_eq, decide_eq_true_eq] at h1 h2
  rcases hx with he | he
  · exact h2 he
  · exact h1 he

theorem opOf_mem_nodeIds_iff {g : LGraph} {m : Nat} : m ∈ g.nodeIds ↔ g.opOf m ≠ none := by
  constructor
  · intro h
    unfold LGraph.nodeIds at h
    rcases List.mem_map.mp h with ⟨pr, hpr, rfl⟩
    unfold LGraph.opOf
    intro hc
    rw [Option.map_eq_none'] at hc
    have := List.find?_eq_none.mp hc pr hpr
    simp at this
  · intro h
    rcases ho : g.opOf m with _ | op
    · exact absurd ho h
    · exact opOf_mem_nodeIds ho

theorem noInterference_interfOK {g : LGraph} {p : IdiomPattern} {m s : Nat}
    (hni : noInterference g = true) (hp : p ∈ allPatterns)
    (hmatch : matchesPattern g p m s = true) : InterfOK g m s := by
  intro p' hp' m' s' hmatch' hnd'
  unfold noInterference at hni
  simp only [List.all_eq_true] at hni
  have h1 := hni p hp m (opOf_mem_nodeIds (matchesPattern_mulOp hmatch))
    s (opOf_mem_nodeIds (matchesPattern_srOp hmatch))
  rw [Bool.or_eq_true] at h1
  rcases h1 with h1 | h1
  · rw [hmatch] at h1
    cases h1
  · simp only [List.all_eq_true] at h1
    have h2 := h1 p' hp' m' (opOf_mem_nodeIds (matchesPattern_mulOp hmatch'))
      s' (opOf_mem_nodeIds (matchesPattern_srOp hmatch'))
    rw [Bool.or_eq_true] at h2
    rcases h2 with h2 | h2
    · exfalso
      rw [hmatch'] at h2
      simp only [Bool.not_and, Bool.not_not] at h2
      have : g.noDelete.contains m' = true := by
        rcases hc : g.noDelete.contains m' with _ | _
        · rw [hc] at h2
          simp at h2
        · rfl
      exact hnd' (by simpa using this)
    · by_cases hmm : m' = m
      · rw [if_pos (by simp [hmm])] at h2
        simp only [beq_iff_eq] at h2
        exact ⟨fun _ => h2, fun hne => absurd hmm hne⟩
      · rw [if_neg (by simp [hmm])] at h2
        rw [Bool.and_eq_true] at h2
        refine ⟨fun he => absurd he hmm, fun _ => ⟨?_, ?_⟩⟩
        · rcases hc : g.hasEdge m' m with _ | _
          · rfl
          · rw [hc] at h2
            simp at h2
        · simpa [bne_iff_ne] using h2.2

/-- One performed rewrite leaves a non-interfering match `(m, s)` (with
`m` distinct from the rewritten `Mul`) intact, interference-freedom
included. -/
theorem match_inv_step {g : LGraph} {p p0 : IdiomPattern} {m s mul0 sr0 kid : Nat}
    {A : List (Nat × LOp)} {E : List LEdge}
    (hwf : g.wf = true) (hOK : StepOK g kid A E)
    (hmatch : matchesPattern g p m s = true) (hint : InterfOK g m s)
    (hp0 : p0 ∈ allPatterns)
    (hmatch0 : matchesPattern g p0 mul0 sr0 = true) (hnd0 : mul0 ∉ g.noDelete)
    (hmm0 : m ≠ mul0) :
    matchesPattern (stepOf g mul0 sr0 kid A E) p m s = true ∧
      InterfOK (stepOf g mul0 sr0 kid A E) m s := by
  have hmul0 := matchesPattern_mulOp hmatch0
  have hsr0 := matchesPattern_srOp hmatch0
  obtain ⟨-, hneq⟩ := hint p0 hp0 mul0 sr0 hmatch0 hnd0
  obtain ⟨hNoEdge, hssr0⟩ := hneq (Ne.symm hmm0)
  have hNoMul : ∀ e ∈ g.sourcesOf m, e.src ≠ mul0 := by
    intro e he hsrc
    have he2 := List.mem_filter.mp he
    have hdst : e.dst = m := by simpa using he2.2
    have := hasEdge_intro he2.1
    rw [hsrc, hdst] at this
    rw [this] at hNoEdge
    cases hNoEdge
  have hmsr0 : s ≠ sr0 := Ne.symm hssr0
  have hfwd := matchesPattern_stepOf_fwd hwf hOK hmul0 hsr0 hmatch hmm0 hmsr0 hNoMul
  refine ⟨hfwd, ?_⟩
  intro p' hp' m' s' hmatch' hnd'
  obtain ⟨hm'match, hm'1, hm'2, hs'1, hs'2⟩ :=
    matchesPattern_stepOf_back hwf hOK hmul0 hsr0 hmatch'
  have hnd'g : m' ∉ g.noDelete := fun hmem => hnd' (noDelete_stepOf_mem hmem hm'2)
  obtain ⟨hE1, hE2⟩ := hint p' hp' m' s' hm'match hnd'g
  refine ⟨hE1, ?_⟩
  intro hne
  obtain ⟨hedge0, hss⟩ := hE2 hne
  have hmlt : m < g.nextId := wf_opOf_lt hwf (matchesPattern_mulOp hmatch)
  have hm'lt : m' < g.nextId := wf_opOf_lt hwf (matchesPattern_mulOp hm'match)
  have hkid0 : g.nextId ≤ kid := hOK.1
  have hmsr0' : m ≠ sr0 := match_mul_ne_sr hmatch hmatch0
  have hEdst : ∀ e ∈ E, g.nextId ≤ e.dst := fun e he => (hOK.2.2.2.1 e he).1
  refine ⟨?_, hss⟩
  rw [hasEdge_stepOf hm'1 hm'2 (by omega) hmm0 hmsr0' hmlt hEdst]
  exact hedge0

theorem pinnedInv_stepOf {g : LGraph} {p p0 : IdiomPattern} {m s mul0 sr0 kid : Nat}
    {A : List (Nat × LOp)} {E : List LEdge}
    (hp0 : p0 ∈ allPatterns) (hmatch0 : matchesPattern g p0 mul0 sr0 = true)
    (hnd0 : mul0 ∉ g.noDelete) (hOK : StepOK g kid A E)
    (h : PinnedInv p m s g) : PinnedInv p m s (stepOf g mul0 sr0 kid A E) := by
  obtain ⟨hwf, hmatch, hint, hnd⟩ := h
  have hmm0 : m ≠ mul0 := by rintro rfl; exact hnd0 hnd
  obtain ⟨h1, h2⟩ := match_inv_step hwf hOK hmatch hint hp0 hmatch0 hnd0 hmm0
  exact ⟨wf_stepOf hwf hOK (matchesPattern_mulOp hmatch0) (matchesPattern_srOp hmatch0),
    h1, h2, noDelete_stepOf_mem hnd (match_mul_ne_sr hmatch hmatch0)⟩

theorem unpinnedInv_stepOf {g : LGraph} {p p0 : IdiomPattern} {m s mul0 sr0 kid : Nat}
    {A : List (Nat × LOp)} {E : List LEdge}
    (hp0 : p0 ∈ allPatterns) (hmatch0 : matchesPattern g p0 mul0 sr0 = true)
    (hnd0 : mul0 ∉ g.noDelete) (hOK : StepOK g kid A E)
    (h : UnpinnedInv p m s g) : UnpinnedInv p m s (stepOf g mul0 sr0 kid A E) := by
  obtain ⟨hwf, hmlt, hslt, hdisj⟩ := h
  have hwf' := wf_stepOf hwf hOK (matchesPattern_mulOp hmatch0) (matchesPattern_srOp hmatch0)
  have hnext : g.nextId ≤ (stepOf g mul0 sr0 kid A E).nextId := by
    rw [stepOf_nextId]; omega
  refine ⟨hwf', by omega, by omega, ?_⟩
  rcases hdisj with ⟨hmatch, hnd, hint⟩ | ⟨hgone1, hgone2⟩
  · by_cases hmm0 : m = mul0
    · -- this very match is the one being rewritten: both nodes are removed
      subst hmm0
      have hsr0eq : sr0 = s := (hint p0 hp0 m sr0 hmatch0 hnd0).1 rfl
      refine Or.inr ⟨nodeIds_stepOf_removed (Or.inl rfl), ?_⟩
      rw [← hsr0eq]
      exact nodeIds_stepOf_removed (Or.inr rfl)
    · obtain ⟨h1, h2⟩ := match_inv_step hwf hOK hmatch hint hp0 hmatch0 hnd0 hmm0
      refine Or.inl ⟨h1, ?_, h2⟩
      intro hc
      have hkid0 : g.nextId ≤ kid := hOK.1
      exact hnd (noDelete_stepOf_back hc (by omega))
  · refine Or.inr ⟨?_, ?_⟩
    · intro hc
      rcases nodeIds_stepOf_back hc with hin | ⟨pr, hpr, hpre⟩
      · exact hgone1 hin
      · have := (hOK.2.2.1 pr hpr).1
        omega
    · intro hc
      rcases nodeIds_stepOf_back hc with hin | ⟨pr, hpr, hpre⟩
      · exact hgone2 hin
      · have := (hOK.2.2.1 pr hpr).1
        omega

theorem vecmat_mem_all {p : IdiomPattern} (h : p ∈ vecmatPatterns) : p ∈ allPatterns :=
  List.mem_append.mpr (Or.inl h)

theorem matmul_mem_all {p : IdiomPattern} (h : p ∈ matmulPatterns) : p ∈ allPatterns :=
  List.mem_append.mpr (Or.inr h)

theorem pinnedInv_vecmatLoop {fuel : Nat} {g : LGraph} {p : IdiomPattern} {m s : Nat}
    (h : PinnedInv p m s g) : PinnedInv p m s (vecmatLoop fuel g) := by
  refine vecmatLoop_inv (PinnedInv p m s) ?_ fuel g h
  intro g' pms hf hP
  obtain ⟨hp0, hmatch0, hnd0⟩ := findMatch_some (p := pms.1) (m := pms.2.1) (s := pms.2.2)
    (by rw [hf])
  obtain ⟨kid, A, E, hOK, heq⟩ := vecmatRewrite_step hP.1 hmatch0
  rw [heq]
  exact pinnedInv_stepOf (vecmat_mem_all hp0) hmatch0 hnd0 hOK hP

theorem pinnedInv_matmulLoop {fuel : Nat} {g : LGraph} {p : IdiomPattern} {m s : Nat}
    (h : PinnedInv p m s g) : PinnedInv p m s (matmulLoop fuel g) := by
  refine matmulLoop_inv (PinnedInv p m s) ?_ fuel g h
  intro g' pms hf hP
  obtain ⟨hp0, hmatch0, hnd0⟩ := findMatch_some (p := pms.1) (m := pms.2.1) (s := pms.2.2)
    (by rw [hf])
  obtain ⟨kid, A, E, hOK, heq⟩ := matmulRewrite_step hP.1 hmatch0
  rw [heq]
  exact pinnedInv_stepOf (matmul_mem_all hp0) hmatch0 hnd0 hOK hP

theorem unpinnedInv_vecmatLoop {fuel : Nat} {g : LGraph} {p : IdiomPattern} {m s : Nat}
    (h : UnpinnedInv p m s g) : UnpinnedInv p m s (vecmatLoop fuel g) := by
  refine vecmatLoop_inv (UnpinnedInv p m s) ?_ fuel g h
  intro g' pms hf hP
  obtain ⟨hp0, hmatch0, hnd0⟩ := findMatch_some (p := pms.1) (m := pms.2.1) (s := pms.2.2)
    (by rw [hf])
  obtain ⟨kid, A, E, hOK, heq⟩ := vecmatRewrite_step hP.1 hmatch0
  rw [heq]
  exact unpinnedInv_stepOf (vecmat_mem_all hp0) hmatch0 hnd0 hOK hP

theorem unpinnedInv_matmulLoop {fuel : Nat} {g : LGraph} {p : IdiomPattern} {m s : Nat}
    (h : UnpinnedInv p m s g) : UnpinnedInv p m s (matmulLoop fuel g) := by
  refine matmulLoop_inv (UnpinnedInv p m s) ?_ fuel g h
  intro g' pms hf hP
  obtain ⟨hp0, hmatch0, hnd0⟩ := findMatch_some (p := pms.1) (m := pms.2.1) (s := pms.2.2)
    (by rw [hf])
  obtain ⟨kid, A, E, hOK, heq⟩ := matmulRewrite_step hP.1 hmatch0
  rw [heq]
  exact unpinnedInv_stepOf (matmul_mem_all hp0) hmatch0 hnd0 hOK hP

/-- After the full pass, every remaining idiom match of any of the four
patterns has its `Mul` in `no_delete`. -/
theorem compile_no_unpinned {g : LGraph} (hwf : g.wf = true) :
    ∀ p ∈ allPatterns, ∀ m s, matchesPattern (metalMatMulCompile g) p m s = true →
      m ∈ (metalMatMulCompile g).noDelete := by
  have hwf1 : (vecmatLoop g.mulCount g).wf = true := wf_vecmatLoop hwf
  have hv : findMatch (vecmatLoop g.mulCount g) vecmatPatterns = none :=
    vecmatLoop_exhausts g.mulCount g hwf (Nat.le_refl _)
  have hv2 : findMatch (metalMatMulCompile g) vecmatPatterns = none :=
    vecmatNone_matmulLoop hwf1 hv
  have hm2 : findMatch (metalMatMulCompile g) matmulPatterns = none :=
    matmulLoop_exhausts (vecmatLoop g.mulCount g).mulCount (vecmatLoop g.mulCount g) hwf1
      (Nat.le_refl _)
  intro p hp m s hmatch
  rcases List.mem_append.mp hp with h | h
  · exact findMatch_none hv2 p h m s hmatch
  · exact findMatch_none hm2 p h m s hmatch

theorem compile_wf {g : LGraph} (hwf : g.wf = true) : (metalMatMulCompile g).wf = true :=
  wf_matmulLoop (wf_vecmatLoop hwf)

/-- A pinned, non-interfering match survives the whole pass intact. -/
theorem compile_pinned_preserved {g : LGraph} {p : IdiomPattern} {m s : Nat}
    (hwf : g.wf = true) (hp : p ∈ allPatterns) (hmatch : matchesPattern g p m s = true)
    (hnd : m ∈ g.noDelete) (hni : noInterference g = true) :
    matchesPattern (metalMatMulCompile g) p m s = true ∧
      m ∈ (metalMatMulCompile g).noDelete := by
  have hint := noInterference_interfOK hni hp hmatch
  have h1 : PinnedInv p m s (vecmatLoop g.mulCount g) :=
    pinnedInv_vecmatLoop ⟨hwf, hmatch, hint, hnd⟩
  have h2 : PinnedInv p m s (metalMatMulCompile g) := pinnedInv_matmulLoop h1
  exact ⟨h2.2.1, h2.2.2.2⟩

/-- An unpinned, non-interfering match is rewritten by the pass: both its
`Mul` and its `SumReduce` nodes are removed from the graph. -/
theorem compile_unpinned_removed {g : LGraph} {p : IdiomPattern} {m s : Nat}
    (hwf : g.wf = true) (hp : p ∈ allPatterns) (hmatch : matchesPattern g p m s = true)
    (hnd : m ∉ g.noDelete) (hni : noInterference g = true) :
    m ∉ (metalMatMulCompile g).nodeIds ∧ s ∉ (metalMatMulCompile g).nodeIds := by
  have hint := noInterference_interfOK hni hp hmatch
  have hmlt : m < g.nextId := wf_opOf_lt hwf (matchesPattern_mulOp hmatch)
  have hslt : s < g.nextId := wf_opOf_lt hwf (matchesPattern_srOp hmatch)
  have h1 : UnpinnedInv p m s (vecmatLoop g.mulCount g) :=
    unpinnedInv_vecmatLoop ⟨hwf, hmlt, hslt, Or.inl ⟨hmatch, hnd, hint⟩⟩
  have h2 : UnpinnedInv p m s (metalMatMulCompile g) := unpinnedInv_matmulLoop h1
  rcases h2.2.2.2 with ⟨hstill, hnd', -⟩ | hgone
  · exact absurd (compile_no_unpinned hwf p hp m s hstill) hnd'
  · exact hgone

theorem edge_mem_stepOf {g : LGraph} {mul sr kid : Nat} {A : List (Nat × LOp)} {E : List LEdge}
    {e : LEdge} (heE : e ∈ E) (h1 : e.src ≠ mul) (h2 : e.src ≠ sr) (h3 : e.dst ≠ mul)
    (h4 : e.dst ≠ sr) : e ∈ (stepOf g mul sr kid A E).edges := by
  unfold stepOf
  simp only [redirTo_eta]
  have hr : redirTo sr kid e = e := by simp [redirTo, h2]
  rw [List.mem_filter, List.mem_filter]
  refine ⟨⟨List.mem_map.mpr ⟨e, List.mem_append.mpr (Or.inr heE), hr⟩, ?_⟩, ?_⟩
  · simp [bne_iff_ne, h1, h3]
  · simp [bne_iff_ne, h2, h4]

theorem node_mem_stepOf {g : LGraph} {mul sr kid : Nat} {A : List (Nat × LOp)} {E : List LEdge}
    {pr : Nat × LOp} (hpr : pr ∈ A) (h1 : pr.1 ≠ mul) (h2 : pr.1 ≠ sr) :
    pr ∈ (stepOf g mul sr kid A E).nodes := by
  unfold stepOf
  rw [List.mem_filter, List.mem_filter]
  exact ⟨⟨List.mem_append.mpr (Or.inr hpr), by simp [bne_iff_ne, h1]⟩, by simp [bne_iff_ne, h2]⟩

/-! # Branch-level evaluation of the rewrite bodies -/

theorem vecmatBody_eq_contig {g : LGraph} {mul sr : Nat} {e1 e2 : LEdge}
    (hC : ((vecmatSrc2Shape e2.shape).isSliced || (vecmatSrc2Shape e2.shape).isPadded) = true) :
    vecmatRewriteBody g mul sr e1 e2 =
      ⟨stepOf g mul sr (g.nextId + 1)
        [(g.nextId, LOp.contiguousOp),
         (g.nextId + 1,
          LOp.matVec (gemvKernelName (vecmatSrc2Shape e2.shape).contiguous.isContiguous))]
        [⟨e2.src, g.nextId, 0, 0, vecmatSrc2Shape e2.shape⟩,
         ⟨e1.src, g.nextId + 1, 0, 0, vecmatSrc1Shape e1.shape⟩,
         ⟨g.nextId, g.nextId + 1, 0, 1, (vecmatSrc2Shape e2.shape).contiguous⟩],
       g.nextId + 1⟩ := by
  simp [vecmatRewriteBody, hC, contiguous_isContiguous, LGraph.addNode, LGraph.addEdge,
    LGraph.moveOutgoingEdge, LGraph.moveReferences, LGraph.removeNode, stepOf,
    List.append_assoc]

theorem vecmatBody_eq_matvec {g : LGraph} {mul sr : Nat} {e1 e2 : LEdge}
    (hC : ¬((vecmatSrc2Shape e2.shape).isSliced || (vecmatSrc2Shape e2.shape).isPadded) = true)
    (hK : (vecmatSrc2Shape e2.shape).isContiguous = true) :
    vecmatRewriteBody g mul sr e1 e2 =
      ⟨stepOf g mul sr g.nextId
        [(g.nextId, LOp.matVec (gemvKernelName (vecmatSrc2Shape e2.shape).isContiguous))]
        [⟨e1.src, g.nextId, 0, 0, vecmatSrc1Shape e1.shape⟩,
         ⟨e2.src, g.nextId, 0, 1, vecmatSrc2Shape e2.shape⟩],
       g.nextId⟩ := by
  simp [vecmatRewriteBody, hC, hK, LGraph.addNode, LGraph.addEdge,
    LGraph.moveOutgoingEdge, LGraph.moveReferences, LGraph.removeNode, stepOf,
    List.append_assoc]

theorem vecmatBody_eq_matvec1row {g : LGraph} {mul sr : Nat} {e1 e2 : LEdge}
    (hC : ¬((vecmatSrc2Shape e2.shape).isSliced || (vecmatSrc2Shape e2.shape).isPadded) = true)
    (hK : ¬(vecmatSrc2Shape e2.shape).isContiguous = true) :
    vecmatRewriteBody g mul sr e1 e2 =
      ⟨stepOf g mul sr g.nextId
        [(g.nextId, LOp.matVec1Row)]
        [⟨e1.src, g.nextId, 0, 0, vecmatSrc1Shape e1.shape⟩,
         ⟨e2.src, g.nextId, 0, 1, vecmatSrc2Shape e2.shape⟩],
       g.nextId⟩ := by
  simp [vecmatRewriteBody, hC, hK, LGraph.addNode, LGraph.addEdge,
    LGraph.moveOutgoingEdge, LGraph.moveReferences, LGraph.removeNode, stepOf,
    List.append_assoc]

theorem matmulBody_eq_cc {g : LGraph} {mul sr : Nat} {e1 e2 : LEdge}
    (hC1 : matmulNeedContig1 (matmulSrc1Shape e1.shape) = true)
    (hC2 : ((matmulSrc2Shape e2.shape).isSliced || (matmulSrc2Shape e2.shape).isPadded) = true) :
    matmulRewriteBody g mul sr e1 e2 =
      ⟨stepOf g mul sr (g.nextId + 2)
        [(g.nextId, LOp.contiguousOp), (g.nextId + 1, LOp.contiguousOp),
         (g.nextId + 2, LOp.matmulKernel
           (gemmKernelName (matmulSrc1Shape e1.shape).contiguous.isContiguous
             (matmulSrc2Shape e2.shape).contiguous.isContiguous))]
        [⟨e1.src, g.nextId, 0, 0, matmulSrc1Shape e1.shape⟩,
         ⟨e2.src, g.nextId + 1, 0, 0, matmulSrc2Shape e2.shape⟩,
         ⟨g.nextId, g.nextId + 2, 0, 0, (matmulSrc1Shape e1.shape).contiguous⟩,
         ⟨g.nextId + 1, g.nextId + 2, 0, 1, (matmulSrc2Shape e2.shape).contiguous⟩],
       g.nextId + 2⟩ := by
  simp [matmulRewriteBody, hC1, hC2, LGraph.addNode, LGraph.addEdge,
    LGraph.moveOutgoingEdge, LGraph.moveReferences, LGraph.removeNode, stepOf,
    List.append_assoc]

theorem matmulBody_eq_cn {g : LGraph} {mul sr : Nat} {e1 e2 : LEdge}
    (hC1 : matmulNeedContig1 (matmulSrc1Shape e1.shape) = true)
    (hC2 : ¬((matmulSrc2Shape e2.shape).isSliced ||
      (matmulSrc2Shape e2.shape).isPadded) = true) :
    matmulRewriteBody g mul sr e1 e2 =
      ⟨stepOf g mul sr (g.nextId + 1)
        [(g.nextId, LOp.contiguousOp),
         (g.nextId + 1, LOp.matmulKernel
           (gemmKernelName (matmulSrc1Shape e1.shape).contiguous.isContiguous
             (matmulSrc2Shape e2.shape).isContiguous))]
        [⟨e1.src, g.nextId, 0, 0, matmulSrc1Shape e1.shape⟩,
         ⟨g.nextId, g.nextId + 1, 0, 0, (matmulSrc1Shape e1.shape).contiguous⟩,
         ⟨e2.src, g.nextId + 1, 0, 1, matmulSrc2Shape e2.shape⟩],
       g.nextId + 1⟩ := by
  simp [matmulRewriteBody, hC1, hC2, LGraph.addNode, LGraph.addEdge,
    LGraph.moveOutgoingEdge, LGraph.moveReferences, LGraph.removeNode, stepOf,
    List.append_assoc]

theorem matmulBody_eq_nc {g : LGraph} {mul sr : Nat} {e1 e2 : LEdge}
    (hC1 : ¬matmulNeedContig1 (matmulSrc1Shape e1.shape) = true)
    (hC2 : ((matmulSrc2Shape e2.shape).isSliced || (matmulSrc2Shape e2.shape).isPadded) = true) :
    matmulRewriteBody g mul sr e1 e2 =
      ⟨stepOf g mul sr (g.nextId + 1)
        [(g.nextId, LOp.contiguousOp),
         (g.nextId + 1, LOp.matmulKernel
           (gemmKernelName (matmulSrc1Shape e1.shape).isContiguous
             (matmulSrc2Shape e2.shape).contiguous.isContiguous))]
        [⟨e2.src, g.nextId, 0, 0, matmulSrc2Shape e2.shape⟩,
         ⟨e1.src, g.nextId + 1, 0, 0, matmulSrc1Shape e1.shape⟩,
         ⟨g.nextId, g.nextId + 1, 0, 1, (matmulSrc2Shape e2.shape).contiguous⟩],
       g.nextId + 1⟩ := by
  simp [matmulRewriteBody, hC1, hC2, LGraph.addNode, LGraph.addEdge,
    LGraph.moveOutgoingEdge, LGraph.moveReferences, LGraph.removeNode, stepOf,
    List.append_assoc]

theorem matmulBody_eq_nn {g : LGraph} {mul sr : Nat} {e1 e2 : LEdge}
    (hC1 : ¬matmulNeedContig1 (matmulSrc1Shape e1.shape) = true)
    (hC2 : ¬((matmulSrc2Shape e2.shape).isSliced ||
      (matmulSrc2Shape e2.shape).isPadded) = true) :
    matmulRewriteBody g mul sr e1 e2 =
      ⟨stepOf g mul sr g.nextId
        [(g.nextId, LOp.matmulKernel
           (gemmKernelName (matmulSrc1Shape e1.shape).isContiguous
             (matmulSrc2Shape e2.shape).isContiguous))]
        [⟨e1.src, g.nextId, 0, 0, matmulSrc1Shape e1.shape⟩,
         ⟨e2.src, g.nextId, 0, 1, matmulSrc2Shape e2.shape⟩],
       g.nextId⟩ := by
  simp [matmulRewriteBody, hC1, hC2, LGraph.addNode, LGraph.addEdge,
    LGraph.moveOutgoingEdge, LGraph.moveReferences, LGraph.removeNode, stepOf,
    List.append_assoc]

/-- When every match is pinned, `findMatch` finds nothing: every unpinned
candidate `Mul` matches no `SumReduce`. -/
theorem findMatch_none_of_allPinned {g : LGraph} {pats : List IdiomPattern}
    (hsub : ∀ p ∈ pats, p ∈ allPatterns) (hap : allPinned g = true) :
    findMatch g pats = none := by
  unfold allPinned at hap
  simp only [List.all_eq_true, Bool.or_eq_true, Bool.not_eq_true'] at hap
  unfold findMatch
  rw [List.findSome?_eq_none_iff]
  intro p hp
  rw [Option.map_eq_none', List.findSome?_eq_none_iff]
  intro m hm
  by_cases hnd : g.noDelete.contains m
  · rw [if_pos hnd]
  · rw [if_neg hnd, Option.map_eq_none', List.find?_eq_none]
    intro s hs hmatch
    rcases hap m hm p (hsub p hp) s hs with hfalse | hcont
    · rw [hmatch] at hfalse
      cases hfalse
    · exact hnd hcont

/-- The first loop is the identity when it finds no match. -/
theorem vecmatLoop_id {fuel : Nat} {g : LGraph}
    (h : findMatch g vecmatPatterns = none) : vecmatLoop fuel g = g := by
  cases fuel with
  | zero => rfl
  | succ n =>
    unfold vecmatLoop
    rw [h]

/-- The second loop is the identity when it finds no match. -/
theorem matmulLoop_id {fuel : Nat} {g : LGraph}
    (h : findMatch g matmulPatterns = none) : matmulLoop fuel g = g := by
  cases fuel with
  | zero => rfl
  | succ n =>
    unfold matmulLoop
    rw [h]

/-- When every idiom match in the graph is pinned, the whole pass is the
identity: no node or edge is touched and no kernel node is emitted. -/
theorem compile_id_of_allPinned {g : LGraph} (hap : allPinned g = true) :
    metalMatMulCompile g = g := by
  unfold metalMatMulCompile
  rw [vecmatLoop_id (findMatch_none_of_allPinned (fun p hp => vecmat_mem_all hp) hap),
    matmulLoop_id (findMatch_none_of_allPinned (fun p hp => matmul_mem_all hp) hap)]

/-! # Claim theorems -/

/-- C1 (amended): After `MetalMatMulCompiler::compile` runs on a graph, no
`Mul → SumReduce` subgraph of the four recognised matmul idiom shapes remains
unless the `Mul` is in `no_delete` (this part is unconditional); and, for
idiom matches that do not overlap another rewritable match (`noInterference`),
every match whose `Mul` is not in `no_delete` has both its `Mul` and its
`SumReduce` node removed.  Without the no-interference condition the removal
clause fails (see the counterexample). -/
theorem C1_pass_eliminates_unpinned_idioms (g : LGraph) (hwf : g.wf = true) :
    (∀ p ∈ allPatterns, ∀ m s, matchesPattern (metalMatMulCompile g) p m s = true →
      m ∈ (metalMatMulCompile g).noDelete) ∧
    (noInterference g = true → ∀ p ∈ allPatterns, ∀ m s,
      matchesPattern g p m s = true → m ∉ g.noDelete →
      m ∉ (metalMatMulCompile g).nodeIds ∧ s ∉ (metalMatMulCompile g).nodeIds) :=
  ⟨compile_no_unpinned hwf,
   fun hni p hp m s hm hnd => compile_unpinned_removed hwf hp hm hnd hni⟩

/-- Witness for C1 on the concrete one-idiom graph `gVec`: the pass removes
both the `Mul` (node 2) and the `SumReduce` (node 3). -/
theorem C1_pass_eliminates_unpinned_idioms_witness :
    2 ∉ (metalMatMulCompile gVec).nodeIds ∧ 3 ∉ (metalMatMulCompile gVec).nodeIds :=
  (C1_pass_eliminates_unpinned_idioms gVec (by decide)).2 (by decide) vecmatPattern
    (by decide) 2 3 (by decide) (by decide)

/-- C1, counterexample to the claim's unconditional removal clause: in
`gTwoSR` one unpinned `Mul` (node 2) feeds two matching `SumReduce` nodes
(3 and 4).  Rewriting the first match removes the `Mul`, so the second
match's `SumReduce` (node 4) is never rewritten and survives the whole pass:
removal of both nodes of every unpinned match fails without the
no-interference side condition. -/
theorem C1_second_sumreduce_survives_counterexample :
    matchesPattern gTwoSR vecmatPattern 2 3 = true ∧
    matchesPattern gTwoSR vecmatPattern 2 4 = true ∧
    gTwoSR.noDelete = [] ∧
    4 ∈ (metalMatMulCompile gTwoSR).nodeIds :=
  ⟨by decide, by decide, rfl, by decide⟩

/-- C2 (amended): the pass itself never rewrites a pinned match.  First
conjunct: a pinned idiom match that does not overlap another rewritable match
(`noInterference`) still matches after the whole pass, and its `Mul` stays in
`no_delete`.  Second conjunct: when every idiom match in the graph is pinned
(`allPinned`), the pass is the identity — every node and edge is left
unchanged and no kernel node is emitted.  Unconditionally, a pinned match can
be broken by a neighbouring rewrite (see the counterexample). -/
theorem C2_pinned_idiom_left_intact :
    (∀ (g : LGraph) (p : IdiomPattern) (m s : Nat), g.wf = true → p ∈ allPatterns →
      matchesPattern g p m s = true → m ∈ g.noDelete → noInterference g = true →
      matchesPattern (metalMatMulCompile g) p m s = true ∧
        m ∈ (metalMatMulCompile g).noDelete) ∧
    (∀ g : LGraph, allPinned g = true → metalMatMulCompile g = g) :=
  ⟨fun _ _ _ _ hwf hp hmatch hnd hni => compile_pinned_preserved hwf hp hmatch hnd hni,
   fun _ hap => compile_id_of_allPinned hap⟩

/-- Witness for C2 on `gVecPinned` (scenario S4): the pinned idiom survives
and, since its match is the only one, the pass leaves the graph untouched. -/
theorem C2_pinned_idiom_left_intact_witness :
    (matchesPattern (metalMatMulCompile gVecPinned) vecmatPattern 2 3 = true ∧
      2 ∈ (metalMatMulCompile gVecPinned).noDelete) ∧
    metalMatMulCompile gVecPinned = gVecPinned :=
  ⟨C2_pinned_idiom_left_intact.1 gVecPinned vecmatPattern 2 3 (by decide) (by decide)
      (by decide) (by decide) (by decide),
   C2_pinned_idiom_left_intact.2 gVecPinned (by decide)⟩

/-- C2, counterexample to the claim as worded: in `gPinnedChain` the pinned
GEMV match (`Mul` 5 → `SumReduce` 6) has its `Mul` fed by the `Mul` (node 2)
of an unpinned match.  Rewriting the unpinned match calls `remove_node` on
node 2, which prunes the edge `2 → 5`, so after the pass the pinned match's
`Mul` has lost a source edge and no longer matches: its incident edges are
not left unchanged. -/
theorem C2_pinned_broken_by_neighbour_counterexample :
    matchesPattern gPinnedChain vecmatPattern 5 6 = true ∧
    5 ∈ gPinnedChain.noDelete ∧
    matchesPattern (metalMatMulCompile gPinnedChain) vecmatPattern 5 6 = false :=
  ⟨by decide, by decide, by decide⟩

/-- C3 (amended): for the operands the code actually guards — the GEMV
rewrite's matrix operand and the GEMM rewrite's two operands — whenever the
rewritten tracker is sliced or padded (or, for the GEMM first operand, rank 3
with a non-leading batch axis), the pass inserts an explicit `Contiguous` op
between that source node and the emitted kernel node, and the kernel receives
the contiguous tracker on its input edge.  The GEMV rewrite's first (vector)
operand is never guarded (see the counterexample), so the claim's
quantification over every source operand had to be restricted.  The first
conjunct covers the GEMV matrix operand, the second the GEMM rewrite's two
operands. -/
theorem C3_contiguous_inserted_for_nonstandard_sources :
    (∀ (g : LGraph) (mul sr : Nat) (e1 e2 : LEdge) (d : Nat), g.wf = true →
      g.sourcePair mul = some (e1, e2) → g.opOf mul = some LOp.mulOp →
      g.opOf sr = some (LOp.sumReduce d) →
      e1.src ≠ mul → e1.src ≠ sr → e2.src ≠ mul → e2.src ≠ sr →
      ((vecmatSrc2Shape e2.shape).isSliced || (vecmatSrc2Shape e2.shape).isPadded) = true →
      ∃ r, vecmatRewriteCore g mul sr = some r ∧
        (g.nextId, LOp.contiguousOp) ∈ r.graph.nodes ∧
        LEdge.mk e2.src g.nextId 0 0 (vecmatSrc2Shape e2.shape) ∈ r.graph.edges ∧
        LEdge.mk g.nextId r.kernelId 0 1 (vecmatSrc2Shape e2.shape).contiguous ∈
          r.graph.edges) ∧
    (∀ (g : LGraph) (mul sr : Nat) (e1 e2 : LEdge) (d : Nat), g.wf = true →
      g.sourcePair mul = some (e1, e2) → g.opOf mul = some LOp.mulOp →
      g.opOf sr = some (LOp.sumReduce d) →
      e1.src ≠ mul → e1.src ≠ sr → e2.src ≠ mul → e2.src ≠ sr →
      (matmulNeedContig1 (matmulSrc1Shape e1.shape) = true →
        ∃ r, matmulRewriteCore g mul sr = some r ∧
          (g.nextId, LOp.contiguousOp) ∈ r.graph.nodes ∧
          LEdge.mk e1.src g.nextId 0 0 (matmulSrc1Shape e1.shape) ∈ r.graph.edges ∧
          LEdge.mk g.nextId r.kernelId 0 0 (matmulSrc1Shape e1.shape).contiguous ∈
            r.graph.edges) ∧
      (((matmulSrc2Shape e2.shape).isSliced || (matmulSrc2Shape e2.shape).isPadded) = true →
        ∃ r cid, matmulRewriteCore g mul sr = some r ∧
          (cid, LOp.contiguousOp) ∈ r.graph.nodes ∧
          LEdge.mk e2.src cid 0 0 (matmulSrc2Shape e2.shape) ∈ r.graph.edges ∧
          LEdge.mk cid r.kernelId 0 1 (matmulSrc2Shape e2.shape).contiguous ∈
            r.graph.edges)) := by
  constructor
  · intro g mul sr e1 e2 d hwf hsp hmul hsr h11 h12 h21 h22 hC
    have hmullt : mul < g.nextId := wf_opOf_lt hwf hmul
    have hsrlt : sr < g.nextId := wf_opOf_lt hwf hsr
    have hcore : vecmatRewriteCore g mul sr = some (vecmatRewriteBody g mul sr e1 e2) := by
      unfold vecmatRewriteCore
      rw [hsp]
      rfl
    refine ⟨vecmatRewriteBody g mul sr e1 e2, hcore, ?_, ?_, ?_⟩ <;>
      simp only [vecmatBody_eq_contig hC]
    · exact node_mem_stepOf (by simp) (show g.nextId ≠ mul by omega)
        (show g.nextId ≠ sr by omega)
    · exact edge_mem_stepOf (by simp) h21 h22 (show g.nextId ≠ mul by omega)
        (show g.nextId ≠ sr by omega)
    · exact edge_mem_stepOf (by simp) (show g.nextId ≠ mul by omega)
        (show g.nextId ≠ sr by omega) (show g.nextId + 1 ≠ mul by omega)
        (show g.nextId + 1 ≠ sr by omega)
  · intro g mul sr e1 e2 d hwf hsp hmul hsr h11 h12 h21 h22
    have hmullt : mul < g.nextId := wf_opOf_lt hwf hmul
    have hsrlt : sr < g.nextId := wf_opOf_lt hwf hsr
    have hcore : matmulRewriteCore g mul sr = some (matmulRewriteBody g mul sr e1 e2) := by
      unfold matmulRewriteCore
      rw [hsp]
      rfl
    constructor
    · intro hC1
      by_cases hC2 :
          ((matmulSrc2Shape e2.shape).isSliced || (matmulSrc2Shape e2.shape).isPadded) = true
      · refine ⟨matmulRewriteBody g mul sr e1 e2, hcore, ?_, ?_, ?_⟩ <;>
          simp only [matmulBody_eq_cc hC1 hC2]
        · exact node_mem_stepOf (by simp) (show g.nextId ≠ mul by omega)
            (show g.nextId ≠ sr by omega)
        · exact edge_mem_stepOf (by simp) h11 h12 (show g.nextId ≠ mul by omega)
            (show g.nextId ≠ sr by omega)
        · exact edge_mem_stepOf (by simp) (show g.nextId ≠ mul by omega)
            (show g.nextId ≠ sr by omega) (show g.nextId + 2 ≠ mul by omega)
            (show g.nextId + 2 ≠ sr by omega)
      · refine ⟨matmulRewriteBody g mul sr e1 e2, hcore, ?_, ?_, ?_⟩ <;>
          simp only [matmulBody_eq_cn hC1 hC2]
        · exact node_mem_stepOf (by simp) (show g.nextId ≠ mul by omega)
            (show g.nextId ≠ sr by omega)
        · exact edge_mem_stepOf (by simp) h11 h12 (show g.nextId ≠ mul by omega)
            (show g.nextId ≠ sr by omega)
        · exact edge_mem_stepOf (by simp) (show g.nextId ≠ mul by omega)
            (show g.nextId ≠ sr by omega) (show g.nextId + 1 ≠ mul by omega)
            (show g.nextId + 1 ≠ sr by omega)
    · intro hC2
      by_cases hC1 : matmulNeedContig1 (matmulSrc1Shape e1.shape) = true
      · refine ⟨matmulRewriteBody g mul sr e1 e2, g.nextId + 1, hcore, ?_, ?_, ?_⟩ <;>
          simp only [matmulBody_eq_cc hC1 hC2]
        · exact node_mem_stepOf (by simp) (show g.nextId + 1 ≠ mul by omega)
            (show g.nextId + 1 ≠ sr by omega)
        · exact edge_mem_stepOf (by simp) h21 h22 (show g.nextId + 1 ≠ mul by omega)
            (show g.nextId + 1 ≠ sr by omega)
        · exact edge_mem_stepOf (by simp) (show g.nextId + 1 ≠ mul by omega)
            (show g.nextId + 1 ≠ sr by omega) (show g.nextId + 2 ≠ mul by omega)
            (show g.nextId + 2 ≠ sr by omega)
      · refine ⟨matmulRewriteBody g mul sr e1 e2, g.nextId, hcore, ?_, ?_, ?_⟩ <;>
          simp only [matmulBody_eq_nc hC1 hC2]
        · exact node_mem_stepOf (by simp) (show g.nextId ≠ mul by omega)
            (show g.nextId ≠ sr by omega)
        · exact edge_mem_stepOf (by simp) h21 h22 (show g.nextId ≠ mul by omega)
            (show g.nextId ≠ sr by omega)
        · exact edge_mem_stepOf (by simp) (show g.nextId ≠ mul by omega)
            (show g.nextId ≠ sr by omega) (show g.nextId + 1 ≠ mul by omega)
            (show g.nextId + 1 ≠ sr by omega)

theorem gemvKernelName_true : gemvKernelName true = "gemv_t_float16_bm8_bn32_tm4_tn4" := by
  rfl

/-- C4: the GEMV rewrite emits the transposed library `MatVec` kernel
(`gemv_t_float16_bm8_bn32_tm4_tn4`) exactly when the matrix operand's final
tracker is contiguous and the strided-read `MatVec1Row` kernel exactly when it
is not; the GEMM rewrite emits the `Matmul` kernel whose name is
`gemmKernelName c1 c2` — `gemm_` followed by `n`/`t` per operand contiguity. -/
theorem C4_kernel_variant_selected_by_contiguity :
    (∀ (g : LGraph) (mul sr : Nat) (e1 e2 : LEdge) (d : Nat), g.wf = true →
      g.sourcePair mul = some (e1, e2) → g.opOf mul = some LOp.mulOp →
      g.opOf sr = some (LOp.sumReduce d) →
      ∃ r, vecmatRewriteCore g mul sr = some r ∧
        ((vecmatSrc2Final e2.shape).isContiguous = true →
          (r.kernelId, LOp.matVec "gemv_t_float16_bm8_bn32_tm4_tn4") ∈ r.graph.nodes) ∧
        ((vecmatSrc2Final e2.shape).isContiguous = false →
          (r.kernelId, LOp.matVec1Row) ∈ r.graph.nodes)) ∧
    (∀ (g : LGraph) (mul sr : Nat) (e1 e2 : LEdge) (d : Nat), g.wf = true →
      g.sourcePair mul = some (e1, e2) → g.opOf mul = some LOp.mulOp →
      g.opOf sr = some (LOp.sumReduce d) →
      ∃ r, matmulRewriteCore g mul sr = some r ∧
        (r.kernelId, LOp.matmulKernel
          (gemmKernelName (matmulSrc1Final e1.shape).isContiguous
            (matmulSrc2Final e2.shape).isContiguous)) ∈ r.graph.nodes) := by
  constructor
  · intro g mul sr e1 e2 d hwf hsp hmul hsr
    have hmullt : mul < g.nextId := wf_opOf_lt hwf hmul
    have hsrlt : sr < g.nextId := wf_opOf_lt hwf hsr
    have hcore : vecmatRewriteCore g mul sr = some (vecmatRewriteBody g mul sr e1 e2) := by
      unfold vecmatRewriteCore
      rw [hsp]
      rfl
    refine ⟨vecmatRewriteBody g mul sr e1 e2, hcore, ?_, ?_⟩
    · intro hcont
      by_cases hC :
          ((vecmatSrc2Shape e2.shape).isSliced || (vecmatSrc2Shape e2.shape).isPadded) = true
      · simp only [vecmatBody_eq_contig hC, contiguous_isContiguous, gemvKernelName_true]
        exact node_mem_stepOf (by simp) (show g.nextId + 1 ≠ mul by omega)
          (show g.nextId + 1 ≠ sr by omega)
      · have hK : (vecmatSrc2Shape e2.shape).isContiguous = true := by
          unfold vecmatSrc2Final at hcont
          rwa [if_neg hC] at hcont
        simp only [vecmatBody_eq_matvec hC hK, hK, gemvKernelName_true]
        exact node_mem_stepOf (by simp) (show g.nextId ≠ mul by omega)
          (show g.nextId ≠ sr by omega)
    · intro hncont
      by_cases hC :
          ((vecmatSrc2Shape e2.shape).isSliced || (vecmatSrc2Shape e2.shape).isPadded) = true
      · exfalso
        have : (vecmatSrc2Final e2.shape).isContiguous = true := by
          unfold vecmatSrc2Final
          rw [if_pos hC]
          exact contiguous_isContiguous _
        rw [this] at hncont
        cases hncont
      · have hK : (vecmatSrc2Shape e2.shape).isContiguous = false := by
          unfold vecmatSrc2Final at hncont
          rwa [if_neg hC] at hncont
        simp only [vecmatBody_eq_matvec1row hC (by rw [hK]; intro hc; cases hc)]
        exact node_mem_stepOf (by simp) (show g.nextId ≠ mul by omega)
          (show g.nextId ≠ sr by omega)
  · intro g mul sr e1 e2 d hwf hsp hmul hsr
    have hmullt : mul < g.nextId := wf_opOf_lt hwf hmul
    have hsrlt : sr < g.nextId := wf_opOf_lt hwf hsr
    have hcore : matmulRewriteCore g mul sr = some (matmulRewriteBody g mul sr e1 e2) := by
      unfold matmulRewriteCore
      rw [hsp]
      rfl
    refine ⟨matmulRewriteBody g mul sr e1 e2, hcore, ?_⟩
    by_cases hC1 : matmulNeedContig1 (matmulSrc1Shape e1.shape) = true <;>
      by_cases hC2 :
        ((matmulSrc2Shape e2.shape).isSliced || (matmulSrc2Shape e2.shape).isPadded) = true
    · have hf1 : matmulSrc1Final e1.shape = (matmulSrc1Shape e1.shape).contiguous := by
        unfold matmulSrc1Final; rw [if_pos hC1]
      have hf2 : matmulSrc2Final e2.shape = (matmulSrc2Shape e2.shape).contiguous := by
        unfold matmulSrc2Final; rw [if_pos hC2]
      simp only [matmulBody_eq_cc hC1 hC2, hf1, hf2]
      exact node_mem_stepOf (by simp) (show g.nextId + 2 ≠ mul by omega)
        (show g.nextId + 2 ≠ sr by omega)
    · have hf1 : matmulSrc1Final e1.shape = (matmulSrc1Shape e1.shape).contiguous := by
        unfold matmulSrc1Final; rw [if_pos hC1]
      have hf2 : matmulSrc2Final e2.shape = matmulSrc2Shape e2.shape := by
        unfold matmulSrc2Final; rw [if_neg hC2]
      simp only [matmulBody_eq_cn hC1 hC2, hf1, hf2]
      exact node_mem_stepOf (by simp) (show g.nextId + 1 ≠ mul by omega)
        (show g.nextId + 1 ≠ sr by omega)
    · have hf1 : matmulSrc1Final e1.shape = matmulSrc1Shape e1.shape := by
        unfold matmulSrc1Final; rw [if_neg hC1]
      have hf2 : matmulSrc2Final e2.shape = (matmulSrc2Shape e2.shape).contiguous := by
        unfold matmulSrc2Final; rw [if_pos hC2]
      simp only [matmulBody_eq_nc hC1 hC2, hf1, hf2]
      exact node_mem_stepOf (by simp) (show g.nextId + 1 ≠ mul by omega)
        (show g.nextId + 1 ≠ sr by omega)
    · have hf1 : matmulSrc1Final e1.shape = matmulSrc1Shape e1.shape := by
        unfold matmulSrc1Final; rw [if_neg hC1]
      have hf2 : matmulSrc2Final e2.shape = matmulSrc2Shape e2.shape := by
        unfold matmulSrc2Final; rw [if_neg hC2]
      simp only [matmulBody_eq_nn hC1 hC2, hf1, hf2]
      exact node_mem_stepOf (by simp) (show g.nextId ≠ mul by omega)
        (show g.nextId ≠ sr by omega)

/-- C10: whenever the GEMV rewrite emits a library `MatVec` node, the kernel
name it requested is the transposed variant `gemv_t_float16_bm8_bn32_tm4_tn4`;
the untransposed `gemv_float16_...` name in the same format string is
unreachable, because the `MatVec`-emitting branch requires contiguity. -/
theorem C10_emitted_matVec_name_always_transposed (g : LGraph) (mul sr : Nat)
    (r : RewriteResult) (nm : String) (hwf : g.wf = true)
    (hcore : vecmatRewriteCore g mul sr = some r)
    (hmem : (r.kernelId, LOp.matVec nm) ∈ r.graph.nodes) :
    nm = "gemv_t_float16_bm8_bn32_tm4_tn4" := by
  unfold vecmatRewriteCore at hcore
  rcases Option.map_eq_some'.mp hcore with ⟨⟨e1, e2⟩, hsp, heq⟩
  subst heq
  by_cases hC : ((vecmatSrc2Shape e2.shape).isSliced || (vecmatSrc2Shape e2.shape).isPadded) = true
  · simp only [vecmatBody_eq_contig hC] at hmem
    have h3 := (List.mem_filter.mp hmem).1
    have h4 := (List.mem_filter.mp h3).1
    rcases List.mem_append.mp h4 with hold | hA
    · have h5 : g.nextId + 1 < g.nextId := wf_node_lt hwf hold
      omega
    · simp only [List.mem_cons, List.not_mem_nil, or_false, Prod.mk.injEq] at hA
      rcases hA with ⟨h6, -⟩ | ⟨-, h7⟩
      · omega
      · rw [contiguous_isContiguous, gemvKernelName_true] at h7
        exact (LOp.matVec.injEq _ _).mp h7
  · by_cases hK : (vecmatSrc2Shape e2.shape).isContiguous = true
    · simp only [vecmatBody_eq_matvec hC hK] at hmem
      have h3 := (List.mem_filter.mp hmem).1
      have h4 := (List.mem_filter.mp h3).1
      rcases List.mem_append.mp h4 with hold | hA
      · have h5 : g.nextId < g.nextId := wf_node_lt hwf hold
        omega
      · simp only [List.mem_cons, List.not_mem_nil, or_false, Prod.mk.injEq] at hA
        have h7 := hA.2
        rw [hK, gemvKernelName_true] at h7
        exact (LOp.matVec.injEq _ _).mp h7
    · simp only [vecmatBody_eq_matvec1row hC hK] at hmem
      have h3 := (List.mem_filter.mp hmem).1
      have h4 := (List.mem_filter.mp h3).1
      rcases List.mem_append.mp h4 with hold | hA
      · have h5 : g.nextId < g.nextId := wf_node_lt hwf hold
        omega
      · simp only [List.mem_cons, List.not_mem_nil, or_false, Prod.mk.injEq] at hA
        exact absurd hA.2 (by intro hc; cases hc)

/-- Witness for C3 on `gVecSliced` (scenario S5): a `Contiguous` node is
inserted between operand B and the emitted kernel, which receives the
contiguous tracker. -/
theorem C3_contiguous_inserted_for_nonstandard_sources_witness :
    ∃ r, vecmatRewriteCore gVecSliced 2 3 = some r ∧
      (gVecSliced.nextId, LOp.contiguousOp) ∈ r.graph.nodes ∧
      LEdge.mk 1 gVecSliced.nextId 0 0 (vecmatSrc2Shape stVec2Sliced) ∈ r.graph.edges ∧
      LEdge.mk gVecSliced.nextId r.kernelId 0 1 (vecmatSrc2Shape stVec2Sliced).contiguous ∈
        r.graph.edges :=
  C3_contiguous_inserted_for_nonstandard_sources.1 gVecSliced 2 3
    ⟨0, 2, 0, 0, stVec1⟩ ⟨1, 2, 0, 1, stVec2Sliced⟩ 2 (by decide) (by decide) (by decide)
    (by decide) (by decide) (by decide) (by decide) (by decide) (by decide)

/-- C3, counterexample to the claim as worded: in `gVecSlicedVec` the GEMV
match's first (vector) operand has a sliced rewritten tracker, yet the
rewrite inserts no `Contiguous` node anywhere and hands the sliced tracker
directly to the kernel on the edge `0 → kernel`: the code never guards the
GEMV vector operand. -/
theorem C3_gemv_vector_operand_counterexample :
    matchesPattern gVecSlicedVec vecmatPattern 2 3 = true ∧
    (vecmatSrc1Shape stVec1Sliced).isSliced = true ∧
    (vecmatRewriteCore gVecSlicedVec 2 3).isSome = true ∧
    rVecSlicedVec.graph.nodes.all (fun pr => pr.2 != LOp.contiguousOp) = true ∧
    LEdge.mk 0 rVecSlicedVec.kernelId 0 0 (vecmatSrc1Shape stVec1Sliced) ∈
      rVecSlicedVec.graph.edges :=
  ⟨by decide, by decide, by decide, by decide, by decide⟩

/-- Witness for C4 on `gVec`: the rewritten matrix operand is permuted, hence
non-contiguous, and the strided-read `MatVec1Row` kernel is emitted. -/
theorem C4_kernel_variant_selected_by_contiguity_witness :
    ∃ r, vecmatRewriteCore gVec 2 3 = some r ∧
      ((vecmatSrc2Final stVec2).isContiguous = true →
        (r.kernelId, LOp.matVec "gemv_t_float16_bm8_bn32_tm4_tn4") ∈ r.graph.nodes) ∧
      ((vecmatSrc2Final stVec2).isContiguous = false →
        (r.kernelId, LOp.matVec1Row) ∈ r.graph.nodes) :=
  C4_kernel_variant_selected_by_contiguity.1 gVec 2 3
    ⟨0, 2, 0, 0, stVec1⟩ ⟨1, 2, 0, 1, stVec2⟩ 2 (by decide) (by decide) (by decide) (by decide)

/-- Witness for C10 on `gVecContig`: the `MatVec` node the rewrite emits
carries the transposed kernel name. -/
theorem C10_emitted_matVec_name_always_transposed_witness :
    (rVecContig.kernelId,
      LOp.matVec "gemv_t_float16_bm8_bn32_tm4_tn4") ∈ rVecContig.graph.nodes ∧
    "gemv_t_float16_bm8_bn32_tm4_tn4" = "gemv_t_float16_bm8_bn32_tm4_tn4" :=
  ⟨by decide,
   C10_emitted_matVec_name_always_transposed gVecContig 2 3 rVecContig
     "gemv_t_float16_bm8_bn32_tm4_tn4" (by decide) (by decide) (by decide)⟩

theorem logicalFakes_length (st : ShapeTracker) :
    st.logicalFakes.length = st.shape.length := by
  simp [ShapeTracker.logicalFakes, ShapeTracker.shape]

theorem matchDims_vecmat_eval (b c : Nat) :
    matchDims [] [DimPat.const 1, DimPat.sym 'N', DimPat.sym 'M'] [1, b, c] =
      some [('M', c), ('N', b)] := by
  simp [matchDims, matchDim]

theorem matchDims_vecmat_inv {l : List Nat} {env : List (Char × Nat)}
    (h : matchDims [] [DimPat.const 1, DimPat.sym 'N', DimPat.sym 'M'] l = some env) :
    ∃ b c, l = [1, b, c] ∧ env = [('M', c), ('N', b)] := by
  rcases l with _ | ⟨a, _ | ⟨b, _ | ⟨c, _ | ⟨d, t⟩⟩⟩⟩
  · simp [matchDims] at h
  · by_cases ha : 1 = a
    · subst ha
      simp [matchDims, matchDim] at h
    · simp [matchDims, matchDim, ha] at h
  · by_cases ha : 1 = a
    · subst ha
      simp [matchDims, matchDim] at h
    · simp [matchDims, matchDim, ha] at h
  · by_cases ha : 1 = a
    · subst ha
      simp [matchDims, matchDim] at h
      exact ⟨b, c, rfl, h.symm⟩
    · simp [matchDims, matchDim, ha] at h
  · by_cases ha : 1 = a
    · subst ha
      simp [matchDims, matchDim] at h
    · simp [matchDims, matchDim, ha] at h

theorem matchDims_vecmat_snd_inv {l : List Nat} {b c : Nat}
    (h : (matchDims [('M', c), ('N', b)]
      [DimPat.const 1, DimPat.sym 'N', DimPat.sym 'M'] l).isSome = true) :
    l = [1, b, c] := by
  rcases l with _ | ⟨a, _ | ⟨x, _ | ⟨y, _ | ⟨d, t⟩⟩⟩⟩
  · simp [matchDims] at h
  · by_cases ha : 1 = a
    · subst ha
      simp [matchDims, matchDim] at h
    · simp [matchDims, matchDim, ha] at h
  · by_cases ha : 1 = a
    · subst ha
      by_cases hx : b = x
      · subst hx
        simp [matchDims, matchDim] at h
      · simp [matchDims, matchDim, hx] at h
    · simp [matchDims, matchDim, ha] at h
  · by_cases ha : 1 = a
    · subst ha
      by_cases hx : b = x
      · subst hx
        by_cases hy : c = y
        · subst hy
          rfl
        · simp [matchDims, matchDim, hy] at h
      · simp [matchDims, matchDim, hx] at h
    · simp [matchDims, matchDim, ha] at h
  · by_cases ha : 1 = a
    · subst ha
      by_cases hx : b = x
      · subst hx
        by_cases hy : c = y
        · subst hy
          simp [matchDims, matchDim] at h
        · simp [matchDims, matchDim, hy] at h
      · simp [matchDims, matchDim, hx] at h
    · simp [matchDims, matchDim, ha] at h

theorem matchDims_vecmat_snd_eval (b c : Nat) :
    (matchDims [('M', c), ('N', b)]
      [DimPat.const 1, DimPat.sym 'N', DimPat.sym 'M'] [1, b, c]).isSome = true := by
  simp [matchDims, matchDim]

/-- The shape part of the GEMV selector, characterised: both input shapes are
`[1, n, m]` for one shared pair `(n, m)`. -/
theorem matchShapes2_vecmat_iff (sh1 sh2 : List Nat) :
    matchShapes2 vecmatPattern.shapes1 vecmatPattern.shapes2 sh1 sh2 = true ↔
      (∃ b c, sh1 = [1, b, c] ∧ sh2 = [1, b, c]) := by
  constructor
  · intro h
    unfold matchShapes2 at h
    rcases hm : matchDims [] vecmatPattern.shapes1 sh1 with _ | env
    · rw [hm] at h
      cases h
    · rw [hm] at h
      obtain ⟨b, c, rfl, rfl⟩ := matchDims_vecmat_inv hm
      exact ⟨b, c, rfl, matchDims_vecmat_snd_inv h⟩
  · rintro ⟨b, c, rfl, rfl⟩
    unfold matchShapes2
    rw [show vecmatPattern.shapes1 = [DimPat.const 1, DimPat.sym 'N', DimPat.sym 'M'] from rfl,
      matchDims_vecmat_eval]
    exact matchDims_vecmat_snd_eval b c

theorem matchFakePat_vecmat1_iff (lf : List Bool) :
    matchFakePat vecmatPattern.fakes1 lf = true ↔ ∃ x, lf = [x, true, false] := by
  rcases lf with _ | ⟨x, _ | ⟨y, _ | ⟨z, _ | ⟨w, t⟩⟩⟩⟩ <;>
    simp [matchFakePat, vecmatPattern]

theorem matchFakePat_vecmat2_iff (lf : List Bool) :
    matchFakePat vecmatPattern.fakes2 lf = true ↔ lf = [true, false, false] := by
  rcases lf with _ | ⟨x, _ | ⟨y, _ | ⟨z, _ | ⟨w, t⟩⟩⟩⟩ <;>
    simp [matchFakePat, vecmatPattern]

theorem vecmat_middle_abstract (sh1 sh2 : List Nat) (lf1 lf2 : List Bool)
    (h1 : lf1.length = sh1.length) :
    (matchShapes2 vecmatPattern.shapes1 vecmatPattern.shapes2 sh1 sh2 &&
     matchFakePat vecmatPattern.fakes1 lf1 &&
     matchFakePat vecmatPattern.fakes2 lf2) = true ↔
    ((sh1.length == 3) && (sh1.getD 0 0 == 1) && (sh2 == sh1) &&
     (lf1.getD 1 false == true) && (lf1.getD 2 true == false) &&
     (lf2 == [true, false, false])) = true := by
  simp only [Bool.and_eq_true, beq_iff_eq]
  constructor
  · rintro ⟨⟨hs, hf1⟩, hf2⟩
    obtain ⟨b, c, rfl, rfl⟩ := (matchShapes2_vecmat_iff _ _).mp hs
    obtain ⟨x, rfl⟩ := (matchFakePat_vecmat1_iff _).mp hf1
    have hlf2 := (matchFakePat_vecmat2_iff _).mp hf2
    subst hlf2
    simp
  · rintro ⟨⟨⟨⟨⟨hlen, hhead⟩, hsh⟩, hg1⟩, hg2⟩, hlf2⟩
    obtain ⟨a1, b, c, rfl⟩ := List.length_eq_three.mp hlen
    have h1' : lf1.length = 3 := by simpa using h1
    obtain ⟨x, y, z, rfl⟩ := List.length_eq_three.mp h1'
    simp [List.getD] at hhead hg1 hg2
    subst hhead hg1 hg2 hsh hlf2
    refine ⟨⟨(matchShapes2_vecmat_iff _ _).mpr ⟨b, c, rfl, rfl⟩, ?_⟩, ?_⟩
    · exact (matchFakePat_vecmat1_iff _).mpr ⟨x, rfl⟩
    · exact (matchFakePat_vecmat2_iff _).mpr rfl

/-- Claim C5 (amended): the GEMV selector fires exactly when the `Mul` has two
inputs of one shared logical shape `[1, N, M]`, the FIRST input's fake flags
are `true` at axis 1 and `false` at axis 2 with axis 0 UNCONSTRAINED (the
source's fake pattern for input 1 is `[None, Some(true), Some(false)]`, a
wildcard at axis 0 — not `Some(true)` as the claim words it), the second
input's fake flags are `(true, false, false)`, and the `Mul` feeds a
`SumReduce` over dimension 2. -/
theorem C5_gemv_selector_characterised (g : LGraph) (mul sr : Nat) :
    matchesPattern g vecmatPattern mul sr = gemvClaimAmended g mul sr := by
  rw [Bool.eq_iff_iff]
  unfold matchesPattern gemvClaimAmended
  rcases hsp : g.sourcePair mul with _ | ⟨e1, e2⟩
  · simp
  · have hm := vecmat_middle_abstract e1.shape.shape e2.shape.shape
      e1.shape.logicalFakes e2.shape.logicalFakes (logicalFakes_length e1.shape)
    simp only [Bool.and_eq_true, beq_iff_eq] at hm ⊢
    constructor
    · rintro ⟨⟨⟨hA, hM⟩, hY⟩, hZ⟩
      exact ⟨⟨⟨hA, hm.mp hM⟩, hY⟩, hZ⟩
    · rintro ⟨⟨⟨hA, hM⟩, hY⟩, hZ⟩
      exact ⟨⟨⟨hA, hm.mpr hM⟩, hY⟩, hZ⟩

/-- Claim C5, counterexample to the claim as worded: on the concrete graph
`gVec` the source's GEMV selector fires although the first input's axis-0
fake flag is `false`, so the claim's condition (axis 0 fake on the first
input) does not hold — the claimed equivalence fails. -/
theorem C5_gemv_selector_counterexample :
    matchesPattern gVec vecmatPattern 2 3 = true ∧ gemvClaimC5 gVec 2 3 = false := by
  constructor
  · decide
  · decide

/-- Claim C6, refuted (code bug): both dispatches apply `div_ceil` to an
already-offset numerator `n + 32 - 1` (resp. `n + b*4 - 1`), a double
ceiling. At `n = 256` the GEMM grid's x count is 9 where the claimed
`ceil(256/32)` is 8 (similarly y: 3 against 2 at `m = 64`), and the MatVec
grid's x count for a contiguous matrix operand is 3 where the claimed
`ceil(256/(32*4))` is 2. The threadgroup dimensions do match the claim:
`(32, 2, 2)` for GEMM and `(BN, BM, 1) = (32, 8, 1)` for MatVec. -/
theorem C6_dispatch_grid_double_ceiling :
    matmulDispatch (ShapeTracker.fromDims [64, 128]) (ShapeTracker.fromDims [128, 256]) = ((9, 3, 1), (32, 2, 2)) ∧
    rustDivCeil 256 32 = 8 ∧ rustDivCeil 64 32 = 2 ∧
    matVecDispatch (ShapeTracker.fromDims [1, 256]) (ShapeTracker.fromDims [64, 256]) = ((3, 1, 1), (32, 8, 1)) ∧
    rustDivCeil 256 (32 * 4) = 2 := by
  decide

/-- Claim C7: `output_buffer_sizes` of the three kernel operators is the
stated symbolic function of the input shape trackers: a single entry
`N * sizeof(f16)` for `MatVec` and `MatVec1Row` with `N` the second dimension
of the second input's shape, and `batch * (M * (N * sizeof(f16)))` for
`Matmul`, where `(batch, M)` are the first input's leading dimensions for a
rank-3 first input and `(1, shape[0])` otherwise. -/
theorem C7_output_buffer_sizes_formulas (s0 s1 : ShapeTracker) :
    matVecOutputBufferSizes [s0, s1] = [s1.shape.getD 1 0 * 2] ∧
    matVec1RowOutputBufferSizes [s0, s1] = [s1.shape.getD 1 0 * 2] ∧
    matmulOutputBufferSizes [s0, s1] =
      [(if s0.shape.length == 3 then s0.shape.getD 0 0 else 1) *
        ((if s0.shape.length == 3 then s0.shape.getD 1 0 else s0.shape.getD 0 0) *
          (s1.shape.getD 1 0 * 2))] := by
  refine ⟨rfl, rfl, ?_⟩
  by_cases h : s0.shape.length == 3 <;>
    simp [matmulOutputBufferSizes, h] <;> ring

/-- Claim C9, refuted for `Matmul` (code bug): with a rank-2 first input,
`process` sets `batch_size = 0` (matmul.rs line 359) and so allocates a
0-byte output buffer, while `output_buffer_sizes` declares `1 * M * N * 2`
bytes; shown at `M = 2, K = 3, N = 4`, where the allocation is 0 bytes
against a declared 16. For `MatVec` and `MatVec1Row` the allocation does
equal the declared size on every pair of input trackers. -/
theorem C9_matmul_process_alloc_zero_rank2 :
    matmulProcessAllocBytes [ShapeTracker.fromDims [2, 3], ShapeTracker.fromDims [3, 4]] = 0 ∧
    matmulOutputBufferSizes [ShapeTracker.fromDims [2, 3], ShapeTracker.fromDims [3, 4]] = [16] ∧
    (∀ s0 s1 : ShapeTracker,
      matVecProcessAllocBytes [s0, s1] = (matVecOutputBufferSizes [s0, s1]).getD 0 0 ∧
      matVec1RowProcessAllocBytes [s0, s1] =
        (matVec1RowOutputBufferSizes [s0, s1]).getD 0 0) :=
  ⟨by decide, by decide, fun _ _ => ⟨rfl, rfl⟩⟩

end Luminal
